import Mathlib

/-!
Shallow embedding of `src/generate_timeline.py` (function `generate_timeline_svg`),
together with proofs settling the frozen claims about it.

Modelling conventions:
* Python strings are Lean `String`s (sequences of unicode scalar values); character-level
  algorithms work on `List Char` via `String.data` / `List.asString`.
* Machine-independent arithmetic: all quantities in the source are non-negative integers,
  modelled as `Nat` (Python ints do not overflow).
* `datetime.strptime(s, "%Y-%m-%d")` is modelled by `parseDate`, reproducing CPython's
  `_strptime` regex semantics (`%Y` = exactly four `\d`, `%m` = `1[0-2]|0[1-9]|[1-9]`,
  `%d` = `3[01]|[12]\d|0[1-9]|[1-9]`, full-string match required) followed by
  `datetime` calendar validation (year ≥ 1, day within month, proleptic Gregorian
  leap years).  ASCII digits only (CPython's `\d` also admits other Unicode decimal
  digits; no claim depends on those).
* `list.sort(key=...)` (a stable sort) is modelled by a stable insertion sort on the
  same key; a stable sort's output is uniquely determined by the key order and the
  input order, so any stable sort is a faithful model.
* The `print` diagnostics of the except-branch are modelled by `skippedEvents`
  (the sequence of offending records, in input order).
* Writing the output file is not modelled; the generated document string is the output.
-/

namespace Timeline

/-- Event record as documented in the source docstring:
`{"date": "YYYY-MM-DD", "time": "HH:MM", "text": "..."}` with all three values strings. -/
structure Event where
  date : String
  time : String
  text : String
deriving Repr, DecidableEq

/-- Processed event, the dict built on lines 18–23 of the source:
`{"date_obj": ..., "date_str": ..., "time": ..., "text": ...}`.
`date_obj` is the parsed date as a `(year, month, day)` triple (a `datetime` at
midnight; comparison of such datetimes is lexicographic on the triple). -/
structure PEvent where
  dateObj : Nat × Nat × Nat
  dateStr : String
  time : String
  text : String
deriving Repr, DecidableEq

/-- Numeric value of an ASCII digit character. -/
def digitVal (c : Char) : Nat := c.toNat - '0'.toNat

/-- Month field of `strptime`: regex `1[0-2]|0[1-9]|[1-9]` (alternatives tried in
this order; as proved in the development, regex backtracking never changes the
outcome because a two-digit match can only be followed by a digit where a
one-digit match would need `-`). Returns the month and the unconsumed characters. -/
def parseMonth : List Char → Option (Nat × List Char)
  | '1' :: c :: rest =>
    if '0' ≤ c ∧ c ≤ '2' then some (10 + digitVal c, rest) else some (1, c :: rest)
  | '0' :: c :: rest =>
    if '1' ≤ c ∧ c ≤ '9' then some (digitVal c, rest) else none
  | [c] => if '1' ≤ c ∧ c ≤ '9' then some (digitVal c, []) else none
  | _ => none

/-- Day field of `strptime`: regex `3[01]|[12]\d|0[1-9]|[1-9]`, alternatives in order. -/
def parseDay : List Char → Option (Nat × List Char)
  | '3' :: c :: rest =>
    if c = '0' ∨ c = '1' then some (30 + digitVal c, rest) else some (3, c :: rest)
  | c₁ :: c₂ :: rest =>
    if ('1' ≤ c₁ ∧ c₁ ≤ '2') ∧ c₂.isDigit then some (10 * digitVal c₁ + digitVal c₂, rest)
    else if c₁ = '0' ∧ ('1' ≤ c₂ ∧ c₂ ≤ '9') then some (digitVal c₂, rest)
    else if '1' ≤ c₁ ∧ c₁ ≤ '9' then some (digitVal c₁, c₂ :: rest)
    else none
  | [c] => if '1' ≤ c ∧ c ≤ '9' then some (digitVal c, []) else none
  | [] => none

/-- Proleptic Gregorian leap-year test used by `datetime`. -/
def isLeap (y : Nat) : Bool := y % 4 = 0 && (y % 100 ≠ 0 || y % 400 = 0)

/-- Days in a month, as validated by the `datetime` constructor. -/
def daysInMonth (y m : Nat) : Nat :=
  if m = 2 then (if isLeap y then 29 else 28)
  else if m = 4 ∨ m = 6 ∨ m = 9 ∨ m = 11 then 30
  else 31

/-- Model of `datetime.strptime(s, "%Y-%m-%d")` on line 17: four ASCII digits, `-`,
month field, `-`, day field, end of string (else "unconverted data remains"), then
`datetime(year, month, day)` validation.  `none` models a raised `ValueError`. -/
def parseDate (s : String) : Option (Nat × Nat × Nat) :=
  match s.data with
  | y₁ :: y₂ :: y₃ :: y₄ :: '-' :: rest =>
    if y₁.isDigit ∧ y₂.isDigit ∧ y₃.isDigit ∧ y₄.isDigit then
      let y := 1000 * digitVal y₁ + 100 * digitVal y₂ + 10 * digitVal y₃ + digitVal y₄
      match parseMonth rest with
      | some (m, '-' :: rest₂) =>
        match parseDay rest₂ with
        | some (d, []) => if 1 ≤ y ∧ d ≤ daysInMonth y m then some (y, m, d) else none
        | _ => none
      | _ => none
    else none
  | _ => none

/-- Preprocessing loop, lines 14–25: records whose date parses are kept (with original
date text, time and text), records raising `ValueError` are dropped. -/
def preprocess (events : List Event) : List PEvent :=
  events.filterMap fun e => (parseDate e.date).map fun d => ⟨d, e.date, e.time, e.text⟩

/-- Records reported by the diagnostic `print` on line 25 (date fails to parse),
in input order. -/
def skippedEvents (events : List Event) : List Event :=
  events.filter fun e => (parseDate e.date).isNone

/-! Model of `textwrap.wrap(paragraph, width=14)` (line 3 import, used on lines 91
and 112) with all `TextWrapper` defaults: `expand_tabs=True` (tabsize 8),
`replace_whitespace=True`, `drop_whitespace=True`, empty indents,
`break_long_words=True`, `break_on_hyphens=True`, `max_lines=None`.
The pipeline is `_munge_whitespace`, then the `wordsep_re` chunk split, then the
greedy `_wrap_chunks` loop.  The `\w` / letter character classes of `wordsep_re`
are approximated as ASCII alphanumerics/underscore plus every non-ASCII scalar
(CPython uses the full Unicode tables; no claim depends on the difference). -/

/-- Whitespace class of `textwrap` (`string.whitespace`): the six characters
replaced by `_munge_whitespace` and split on by `wordsep_re`. -/
def wsChar (c : Char) : Bool :=
  c = '\t' || c = '\n' || c = '\x0b' || c = '\x0c' || c = '\r' || c = ' '

/-- Characters stripped by Python `str.strip()` (`str.isspace`), used for the
`chunk.strip() == ''` tests of `_wrap_chunks`. -/
def pyIsSpace (c : Char) : Bool :=
  wsChar c || c = '\x1c' || c = '\x1d' || c = '\x1e' || c = '\x1f' || c = '\u0085' ||
  c = '\u00a0' || c = '\u1680' || ('\u2000' ≤ c && c ≤ '\u200a') || c = '\u2028' ||
  c = '\u2029' || c = '\u202f' || c = '\u205f' || c = '\u3000'

/-- Letter class of `wordsep_re` (`[^\d\W]`), approximated (see above). -/
def letterChar (c : Char) : Bool := c.isAlpha || 128 ≤ c.toNat

/-- Word-character class `\w`, approximated (see above). -/
def wordChar (c : Char) : Bool := c.isAlphanum || c = '_' || 128 ≤ c.toNat

/-- Class `word_punct = [\w!"\'&.,?]` of `wordsep_re`. -/
def wordPunct (c : Char) : Bool :=
  wordChar c || c = '!' || c = '"' || c.toNat = 39 || c = '&' || c = '.' || c = ',' || c = '?'

/-- Model of `str.expandtabs()` (tabsize 8): each tab becomes spaces up to the next
multiple of 8; newline and carriage return reset the column. -/
def expandTabsGo (col : Nat) : List Char → List Char
  | [] => []
  | '\t' :: r => List.replicate (8 - col % 8) ' ' ++ expandTabsGo (col + (8 - col % 8)) r
  | '\n' :: r => '\n' :: expandTabsGo 0 r
  | '\r' :: r => '\r' :: expandTabsGo 0 r
  | c :: r => c :: expandTabsGo (col + 1) r

/-- Model of `TextWrapper._munge_whitespace`: expand tabs, then translate each of
the six whitespace characters to a space. -/
def munge (s : List Char) : List Char :=
  (expandTabsGo 0 s).map fun c => if wsChar c then ' ' else c

/-- Lookbehind of the hyphenated-word branch of `wordsep_re`
(`(?<=lt{2}-)|(?<=lt-lt-)`), applied to the reversed text before the current
position (whose head is the hyphen just consumed). -/
def hyphLookbehind : List Char → Bool
  | '-' :: x :: '-' :: y :: _ => letterChar x && letterChar y
  | '-' :: x :: y :: _ => letterChar x && letterChar y
  | _ => false

/-- Lookahead `(?=lt-?lt)` of the hyphenated-word branch. -/
def hyphLookahead : List Char → Bool
  | a :: '-' :: c :: _ => letterChar a && letterChar c
  | a :: b :: _ => letterChar a && letterChar b
  | _ => false

/-- Lookahead `(?=-{2,}\w)` of the em-dash branches: a maximal run of at least two
hyphens followed by a word character. -/
def emDashAhead (l : List Char) : Bool :=
  let p := l.span (· = '-')
  2 ≤ p.1.length && (match p.2 with | a :: _ => wordChar a | [] => false)

/-- Word branch of `wordsep_re` (`nws+?` with its three closing alternatives,
tried in regex order after each lazily consumed character): returns the finished
token and the unconsumed characters.  `tokRev` is the non-empty reversed token so
far, `prevRev` the reversed text before the token (lookbehinds may reach it). -/
def wordTok (prevRev : List Char) : List Char → List Char → (List Char × List Char)
  | tokRev, [] => (tokRev.reverse, [])
  | tokRev, c :: r =>
    if c = '-' && hyphLookbehind ('-' :: (tokRev ++ prevRev)) && hyphLookahead r then
      (('-' :: tokRev).reverse, r)
    else if wsChar c then (tokRev.reverse, c :: r)
    else if (match tokRev with | t :: _ => wordPunct t | [] => false) && emDashAhead (c :: r) then
      (tokRev.reverse, c :: r)
    else wordTok prevRev (c :: tokRev) r

/-- Scanning loop of `wordsep_re.split`: at each position the first matching
alternative (whitespace run, em-dash run, word) produces the next chunk.  A match
always starts exactly at the current position, so the split has no gaps and
produces no empty chunks (the `if c` filter of `_split` never fires).  The fuel
only bounds the iteration count; every step consumes at least one character, so
`s.length` fuel is enough. -/
def tokenizeGo : Nat → List Char → List Char → List (List Char)
  | 0, _, _ => []
  | fuel + 1, prevRev, rest =>
    match rest with
    | [] => []
    | c :: r =>
      if wsChar c then
        let p := rest.span fun x => wsChar x
        p.1 :: tokenizeGo fuel (p.1.reverse ++ prevRev) p.2
      else if (match prevRev with | q :: _ => wordPunct q | [] => false) && emDashAhead rest then
        let p := rest.span (· = '-')
        p.1 :: tokenizeGo fuel (p.1.reverse ++ prevRev) p.2
      else
        let p := wordTok prevRev [c] r
        p.1 :: tokenizeGo fuel (p.1.reverse ++ prevRev) p.2

/-- Model of `TextWrapper._split` composed with the munge step already done. -/
def wordsepSplit (s : List Char) : List (List Char) :=
  tokenizeGo s.length [] s

/-- Model of `str.rfind('-', 0, bound)`: the largest index `< bound` holding a
hyphen, if any. -/
def rfindHyphen (chunk : List Char) (bound : Nat) : Option Nat :=
  (((chunk.take bound).reverse.findIdx? (· = '-')).map fun j => (chunk.take bound).length - 1 - j)

/-- Model of `TextWrapper._handle_long_word` (with `break_long_words=True`,
`break_on_hyphens=True`): split the head chunk at the available space, or just
after the last hyphen fitting in it when one exists with a non-hyphen before it.
Returns the piece moved to the current line and the remainder of the chunk. -/
def handleLongWord (width curLen : Nat) (chunk : List Char) : List Char × List Char :=
  let spaceLeft := if width < 1 then 1 else width - curLen
  let endIdx :=
    if spaceLeft < chunk.length then
      match rfindHyphen chunk spaceLeft with
      | some h => if 0 < h ∧ (chunk.take h).any (fun c => c ≠ '-') then h + 1 else spaceLeft
      | none => spaceLeft
    else spaceLeft
  (chunk.take endIdx, chunk.drop endIdx)

/-- Inner `while chunks` loop of `_wrap_chunks`: greedily move chunks to the
current line while the accumulated length stays within the width.  Returns the
line chunks, their total length and the remaining chunks. -/
def greedyFill (width : Nat) : List (List Char) → Nat → (List (List Char) × Nat × List (List Char))
  | [], curLen => ([], curLen, [])
  | c :: rest, curLen =>
    if curLen + c.length ≤ width then
      let p := greedyFill width rest (curLen + c.length)
      (c :: p.1, p.2.1, p.2.2)
    else ([], curLen, c :: rest)

/-- Test `chunk.strip() == ''` used by `_wrap_chunks`. -/
def stripIsEmpty (s : List Char) : Bool := s.all pyIsSpace

/-- Outer `while chunks` loop of `_wrap_chunks` (defaults: both indents empty, so
the available width is the full width on every line; `max_lines=None`, so its
block is dead code).  `linesEmpty` tracks `not lines` (whether no line has been
emitted yet), which gates the drop of a leading whitespace chunk.  Every
iteration removes a chunk or shortens one, so fuel
`total characters + chunk count + 1` is enough. -/
def wrapOuter (width : Nat) : Nat → Bool → List (List Char) → List (List Char)
  | 0, _, _ => []
  | fuel + 1, linesEmpty, chunks =>
    match chunks with
    | [] => []
    | c0 :: ctail =>
      let chunks1 := if stripIsEmpty c0 && !linesEmpty then ctail else c0 :: ctail
      let g := greedyFill width chunks1 0
      let step :
          List (List Char) × List (List Char) :=
        match g.2.2 with
        | r0 :: rtail =>
          if width < r0.length then
            let h := handleLongWord width g.2.1 r0
            (g.1 ++ [h.1], h.2 :: rtail)
          else (g.1, r0 :: rtail)
        | [] => (g.1, [])
      let curLine :=
        match step.1.getLast? with
        | some lastC => if stripIsEmpty lastC then step.1.dropLast else step.1
        | none => step.1
      match curLine with
      | [] => wrapOuter width fuel linesEmpty step.2
      | _ => curLine.flatten :: wrapOuter width fuel false step.2

/-- Model of `textwrap.wrap(paragraph, width)`: munge, split into chunks, wrap. -/
def wrap (paragraph : String) (width : Nat) : List String :=
  let chunks := wordsepSplit (munge paragraph.data)
  (wrapOuter width ((chunks.map List.length).sum + chunks.length + 1) true chunks).map
    List.asString

/-- Model of Python `str.split(sep)` for a one-character separator (no collapsing
of adjacent separators; the empty string yields `[""]`). -/
def pySplit (sep : Char) : List Char → List (List Char)
  | [] => [[]]
  | c :: r =>
    match pySplit sep r with
    | [] => [[]]
    | h :: t => if c = sep then [] :: h :: t else (c :: h) :: t

/-- Wrapped text lines of one event, computed identically on lines 89–91 and
110–112 of the source: split the text on embedded newlines, word-wrap each
paragraph at width 14, concatenate. -/
def eventLines (text : String) : List String :=
  (pySplit '\n' text.data).flatMap fun p => wrap p.asString 14

/-- Comparison of two parsed dates: `datetime` comparison is lexicographic on
(year, month, day) (times are all midnight here). -/
def dateLe (a b : Nat × Nat × Nat) : Bool :=
  a.1 < b.1 || (a.1 = b.1 && (a.2.1 < b.2.1 || (a.2.1 = b.2.1 && a.2.2 ≤ b.2.2)))

/-- Insertion step of the stable sort: the new element goes after every element
whose key is ≤ its key, hence after all elements with an equal key that were
supplied earlier — exactly the placement a stable sort gives it. -/
def sortInsert (e : PEvent) : List PEvent → List PEvent
  | [] => [e]
  | b :: bs => if dateLe b.dateObj e.dateObj then b :: sortInsert e bs else e :: b :: bs

/-- Model of `processed_events.sort(key=lambda x: x["date_obj"])` on line 28
(Python's sort is stable; see the module docstring). -/
def sortByDateObj (l : List PEvent) : List PEvent :=
  l.foldl (fun acc e => sortInsert e acc) []

/-- One step of the grouping loop, lines 32–36: a Python `dict` preserves insertion
order, so `grouped_events` is an association list; an existing key gets the event
appended to its bucket, a new key is appended at the end with a singleton bucket. -/
def addToGroups (gs : List (String × List PEvent)) (e : PEvent) : List (String × List PEvent) :=
  match gs with
  | [] => [(e.dateStr, [e])]
  | (k, es) :: rest =>
    if k = e.dateStr then (k, es ++ [e]) :: rest else (k, es) :: addToGroups rest e

/-- Grouping loop, lines 30–36. -/
def groupEvents (l : List PEvent) : List (String × List PEvent) :=
  l.foldl addToGroups []

/-- Color theme, lines 46–58: the five semantic colors in declaration order. -/
structure Palette where
  bgColor : String
  textColor : String
  secondaryText : String
  lineColor : String
  connectorColor : String

/-- Dark-mode colors, lines 47–52. -/
def darkPalette : Palette := ⟨"#222222", "#eeeeee", "#aaaaaa", "#555555", "#666666"⟩

/-- Light-mode colors, lines 53–58. -/
def lightPalette : Palette := ⟨"#ffffff", "#333333", "#555555", "#333333", "#999999"⟩

/-- Constant `timeline_y = 100`, line 42. -/
def timelineY : Nat := 100

/-- Constant `date_spacing = 160`, line 43. -/
def dateSpacing : Nat := 160

/-- Constant `current_x = 80`, line 44 (initial position). -/
def initialX : Nat := 80

/-! The header f-string of lines 61–80 is a concatenation of literal pieces and
interpolated values; it is transcribed below piecewise (an f-string is exactly
such a concatenation), with the seven occurrences of the five palette colors as
explicit slots: background, line, connector, background again (event-circle
stroke), text, secondary, text again.  `\x7b` and `\x7d` denote the literal
braces produced by the doubled braces of the f-string. -/

/-- Header text before the first color slot (depends on width and height). -/
def headL0 (svgWidth svgHeight : Nat) : String :=
  "<svg width=\"" ++ toString svgWidth ++ "\" height=\"" ++ toString svgHeight ++
  "\" viewBox=\"0 0 " ++ toString svgWidth ++ " " ++ toString svgHeight ++ "\" \n" ++
  "                      xmlns=\"http://www.w3.org/2000/svg\" font-family=\"Arial\">\n" ++
  "    <!-- 样式定义 -->\n    <style>\n        .background \x7b fill: "

/-- Header text between color slots 1 and 2. -/
def headL1 : String := "; \x7d\n        .timeline-line \x7b stroke: "

/-- Header text between color slots 2 and 3. -/
def headL2 : String := "; stroke-width: 2; \x7d\n        .day-connector \x7b stroke: "

/-- Header text between color slots 3 and 4. -/
def headL3 : String :=
  "; stroke-dasharray: 3,2; stroke-width: 1; \x7d\n        .event-circle \x7b fill: #4a6da7; stroke: "

/-- Header text between color slots 4 and 5. -/
def headL4 : String :=
  "; stroke-width: 1; r: 5; \x7d\n        .event-circle.main-anchor \x7b fill: #e74c3c; r: 6; \x7d\n        .date-label \x7b font-size: 11px; fill: "

/-- Header text between color slots 5 and 6. -/
def headL5 : String := "; text-anchor: middle; \x7d\n        .time-label \x7b font-size: 10px; fill: "

/-- Header text between color slots 6 and 7. -/
def headL6 : String := "; text-anchor: start; \x7d\n        .event-label \x7b font-size: 10px; fill: "

/-- Header text after the last color slot: rest of the style block, background
rectangle, main timeline baseline (depends on width and the baseline height). -/
def headL7 (svgWidth ty : Nat) : String :=
  "; text-anchor: start; \x7d\n        .day-group \x7b stroke: none; fill: none; \x7d\n    </style>\n\n" ++
  "    <!-- 背景 -->\n    <rect width=\"100%\" height=\"100%\" class=\"background\" />\n\n" ++
  "    <!-- 主时间轴线 -->\n    <line x1=\"50\" y1=\"" ++ toString ty ++ "\" x2=\"" ++
  toString (svgWidth - 50) ++ "\" y2=\"" ++ toString ty ++ "\" class=\"timeline-line\" />\n"

/-- SVG header, lines 61–80. -/
def svgHeader (p : Palette) (svgWidth svgHeight : Nat) : String :=
  headL0 svgWidth svgHeight ++ p.bgColor ++ headL1 ++ p.lineColor ++ headL2 ++
  p.connectorColor ++ headL3 ++ p.bgColor ++ headL4 ++ p.textColor ++ headL5 ++
  p.secondaryText ++ headL6 ++ p.textColor ++ headL7 svgWidth timelineY

/-- Height required by one event, line 92: `len(lines) * 15 + 10`. -/
def eventHeight (e : PEvent) : Nat := (eventLines e.text).length * 15 + 10

/-- Height required by one day group, line 94:
`sum(event_heights) + len(day_events) * 10`. -/
def totalHeightOf (dayEvents : List PEvent) : Nat :=
  (dayEvents.map eventHeight).sum + dayEvents.length * 10

/-- Text lines of one event, lines 119–120: `enumerate(lines)` starting at `j`. -/
def renderTextLines (lines : List String) (j : Nat) : String :=
  match lines with
  | [] => ""
  | line :: rest =>
    "                <text x=\"15\" y=\"" ++ toString (20 + j * 15) ++
    "\" class=\"event-label\">" ++ line ++ "</text>\n" ++ renderTextLines rest (j + 1)

/-- Markup of one event at vertical offset `yOffset`, lines 114–122. -/
def renderEvent (e : PEvent) (yOffset : Nat) : String :=
  "            <g transform=\"translate(0," ++ toString yOffset ++ ")\">\n" ++
  "                <circle cx=\"0\" cy=\"0\" r=\"5\" class=\"event-circle\"/>\n" ++
  "                <text x=\"15\" y=\"5\" class=\"time-label\">" ++ e.time ++ "</text>\n" ++
  renderTextLines (eventLines e.text) 0 ++
  "            </g>\n"

/-- Inner event loop of one day group, lines 107–123: renders each event at the
running `y_offset`, advancing it by `len(lines) * 15 + 20`.  Returns the markup
and the final offset. -/
def renderEvents : List PEvent → Nat → String × Nat
  | [], y => ("", y)
  | e :: rest, y =>
    let p := renderEvents rest (y + (eventLines e.text).length * 15 + 20)
    (renderEvent e y ++ p.1, p.2)

/-- Markup of one day group at horizontal position `currentX`, lines 96–127:
anchor circle, date label, a connector line spanning the group total height, and
the stacked events. -/
def renderDay (dateStr : String) (dayEvents : List PEvent) (currentX : Nat) : String :=
  "    <!-- " ++ dateStr ++ " -->\n" ++
  "    <g transform=\"translate(" ++ toString currentX ++ "," ++ toString timelineY ++ ")\">\n" ++
  "        <circle cx=\"0\" cy=\"0\" r=\"6\" class=\"event-circle main-anchor\"/>\n" ++
  "        <text x=\"0\" y=\"-20\" class=\"date-label\">" ++ dateStr ++ "</text>\n" ++
  "        <g class=\"day-group\" transform=\"translate(0,25)\">\n" ++
  "            <line x1=\"0\" y1=\"-15\" x2=\"0\" y2=\"" ++ toString (totalHeightOf dayEvents) ++
  "\" class=\"day-connector\"/>\n" ++
  (renderEvents dayEvents 0).1 ++
  "        </g>\n" ++
  "    </g>\n\n"

/-- Outer loop over day groups, lines 82–131: renders each group at the running
`current_x` (advanced by `date_spacing`) while accumulating
`max_height = max(max_height, timeline_y + total_height + 50)` (line 130).
Returns the concatenated markup and the final `max_height`. -/
def renderGroups : List (String × List PEvent) → Nat → Nat → String × Nat
  | [], _, maxHeight => ("", maxHeight)
  | (ds, evs) :: rest, currentX, maxHeight =>
    let p := renderGroups rest (currentX + dateSpacing)
        (max maxHeight (timelineY + totalHeightOf evs + 50))
    (renderDay ds evs currentX ++ p.1, p.2)

/-- Sequence of `current_x` values at which the successive day groups are placed
by the loop (observation of the accumulator of lines 44, 98 and 131). -/
def loopXs : List (String × List PEvent) → Nat → List Nat
  | [], _ => []
  | _ :: rest, x => x :: loopXs rest (x + dateSpacing)

/-- Model of Python `str.replace(pat, rep)` on character lists: scan left to
right, replacing non-overlapping occurrences and continuing after each
replacement (replacements are not rescanned).  The callers only use non-empty
patterns; for an empty pattern this model returns the string unchanged (Python
would interleave the replacement, a case the source never produces). -/
def replaceLF (pat rep : List Char) : Nat → List Char → List Char
  | _, [] => []
  | 0, s => s
  | fuel + 1, c :: cs =>
    if pat ≠ [] ∧ pat.isPrefixOf (c :: cs) then
      rep ++ replaceLF pat rep fuel ((c :: cs).drop pat.length)
    else
      c :: replaceLF pat rep fuel cs

/-- Entry point of the scan with enough fuel: a match consumes `pat.length ≥ 1`
characters and any step at least one, so `s.length` iterations always finish the
scan (the fuel-exhaustion arm is never reached). -/
def replaceL (pat rep : List Char) (s : List Char) : List Char :=
  replaceLF pat rep s.length s

/-- Model of Python `str.replace` on strings. -/
def pyReplace (s pat rep : String) : String :=
  (replaceL pat.data rep.data s.data).asString

/-- Body of `generate_timeline_svg` after preprocessing, lines 27–143: sort,
group, compute layout constants, build the header and the day groups, patch the
height and viewBox via `str.replace` (lines 134–140), append the closing tag.
The written file's content is the returned string. -/
def renderFromProcessed (processed : List PEvent) (darkMode : Bool) : String :=
  let sortedEvents := sortByDateObj processed
  let groupedEvents := groupEvents sortedEvents
  let dateCount := groupedEvents.length
  let svgWidth := max 1100 (dateCount * 180)
  let svgHeight := 500
  let p := if darkMode then darkPalette else lightPalette
  let header := svgHeader p svgWidth svgHeight
  let body := renderGroups groupedEvents initialX timelineY
  let content := header ++ body.1
  let content₂ := pyReplace content ("height=\"" ++ toString svgHeight ++ "\"")
      ("height=\"" ++ toString body.2 ++ "\"")
  let content₃ := pyReplace content₂
      ("viewBox=\"0 0 " ++ toString svgWidth ++ " " ++ toString svgHeight ++ "\"")
      ("viewBox=\"0 0 " ++ toString svgWidth ++ " " ++ toString body.2 ++ "\"")
  content₃ ++ "</svg>"

/-- Model of `generate_timeline_svg(events, output_file, dark_mode)` for records
of the documented shape (the `output_file` argument only names the destination
and does not influence the content). -/
def generate_timeline_svg (events : List Event) (darkMode : Bool) : String :=
  renderFromProcessed (preprocess events) darkMode

/-- Day groups produced for a given input. -/
def groupsOf (events : List Event) : List (String × List PEvent) :=
  groupEvents (sortByDateObj (preprocess events))

/-- Canvas width `svg_width = max(1100, date_count * 180)`, line 40. -/
def svgWidthOf (events : List Event) : Nat :=
  max 1100 ((groupsOf events).length * 180)

/-- Final canvas height (`max_height`, substituted on lines 134–140). -/
def finalHeightOf (events : List Event) : Nat :=
  (renderGroups (groupsOf events) initialX timelineY).2

/-- Minimum canvas width, the floor of `svg_width` (line 40). -/
def minSvgWidth : Nat := 1100

/-- Minimum canvas height: `max_height` starts at `timeline_y` (line 83) and only
grows, so the final height of line 136 is never below this. -/
def minSvgHeight : Nat := 100

/-! Dynamic-record model for the error-handling claims.  Records here may lack
keys, and the date value may be a non-string; `time`/`text` values are kept as
strings (the claims only concern a missing key or a non-string date).
`KeyError` (missing subscript) and `TypeError` (`strptime` on a non-string) are
not `ValueError`, so the `except` on line 24 does not catch them; an escaping
exception aborts the call before the output file is opened on line 146, so no
output is written. -/

/-- Value of the `"date"` key: a string or some non-string object. -/
inductive PyVal where
  | str (s : String)
  | nonstr
deriving Repr, DecidableEq

/-- Raw input record: `none` models an absent key. -/
structure RawRecord where
  date : Option PyVal
  time : Option String
  text : Option String
deriving Repr, DecidableEq

/-- Exception escaping the preprocessing loop. -/
inductive PyExn where
  | keyError
  | typeError
deriving Repr, DecidableEq

/-- Preprocessing loop, lines 14–25, at the dynamic level.  Evaluation order of
the `try` block: `event["date"]` (KeyError), `strptime` (TypeError on non-string,
ValueError on a bad date — only the latter is caught), then `event["time"]` and
`event["text"]` (KeyError).  Returns the processed events and the records
reported by the diagnostic on line 25. -/
def preprocessDyn : List RawRecord → Except PyExn (List PEvent × List RawRecord)
  | [] => .ok ([], [])
  | r :: rest =>
    match r.date with
    | none => .error .keyError
    | some .nonstr => .error .typeError
    | some (.str ds) =>
      match parseDate ds with
      | none => (preprocessDyn rest).map fun p => (p.1, r :: p.2)
      | some dobj =>
        match r.time with
        | none => .error .keyError
        | some tm =>
          match r.text with
          | none => .error .keyError
          | some tx => (preprocessDyn rest).map fun p => (⟨dobj, ds, tm, tx⟩ :: p.1, p.2)

/-- Whole invocation at the dynamic level: `.error` means the call aborted with
an uncaught exception and wrote no output; `.ok doc` means `doc` was written. -/
def generateDyn (records : List RawRecord) (darkMode : Bool) : Except PyExn String :=
  (preprocessDyn records).map fun p => renderFromProcessed p.1 darkMode

/-! Properties of the date order and the stable sort. -/

theorem dateLe_refl (a : Nat × Nat × Nat) : dateLe a a = true := by
  simp [dateLe]

theorem dateLe_total (a b : Nat × Nat × Nat) : dateLe a b = true ∨ dateLe b a = true := by
  simp only [dateLe, Bool.or_eq_true, Bool.and_eq_true, decide_eq_true_eq]
  omega

theorem dateLe_trans {a b c : Nat × Nat × Nat} (h₁ : dateLe a b = true)
    (h₂ : dateLe b c = true) : dateLe a c = true := by
  simp only [dateLe, Bool.or_eq_true, Bool.and_eq_true, decide_eq_true_eq] at h₁ h₂ ⊢
  omega

/-- Sortedness by parsed date. -/
def SortedByDate (l : List PEvent) : Prop :=
  l.Pairwise fun a b => dateLe a.dateObj b.dateObj = true

theorem mem_sortInsert {e x : PEvent} {l : List PEvent} :
    x ∈ sortInsert e l ↔ x = e ∨ x ∈ l := by
  induction l with
  | nil => simp [sortInsert]
  | cons b bs ih =>
    by_cases h : dateLe b.dateObj e.dateObj = true
    · simp only [sortInsert, if_pos h, List.mem_cons, ih]
      tauto
    · simp only [sortInsert, if_neg h, List.mem_cons]

theorem sortInsert_sorted {e : PEvent} {l : List PEvent} (h : SortedByDate l) :
    SortedByDate (sortInsert e l) := by
  induction l with
  | nil => simp [sortInsert, SortedByDate]
  | cons b bs ih =>
    rcases (List.pairwise_cons.mp h) with ⟨hb, hbs⟩
    by_cases hle : dateLe b.dateObj e.dateObj = true
    · rw [SortedByDate, sortInsert, if_pos hle]
      refine List.pairwise_cons.mpr ⟨?_, ih hbs⟩
      intro x hx
      rcases mem_sortInsert.mp hx with rfl | hx
      · exact hle
      · exact hb x hx
    · rw [SortedByDate, sortInsert, if_neg hle]
      have heb : dateLe e.dateObj b.dateObj = true := by
        rcases dateLe_total b.dateObj e.dateObj with h | h
        · exact absurd h hle
        · exact h
      refine List.pairwise_cons.mpr ⟨?_, h⟩
      intro x hx
      rcases List.mem_cons.mp hx with rfl | hx
      · exact heb
      · exact dateLe_trans heb (hb x hx)

theorem sortByDateObj_go_sorted (l : List PEvent) :
    ∀ acc : List PEvent, SortedByDate acc →
      SortedByDate (l.foldl (fun acc e => sortInsert e acc) acc) := by
  induction l with
  | nil => intro acc h; simpa using h
  | cons e l ih =>
    intro acc h
    exact ih (sortInsert e acc) (sortInsert_sorted h)

theorem sortByDateObj_sorted (l : List PEvent) : SortedByDate (sortByDateObj l) :=
  sortByDateObj_go_sorted l [] (by simp [SortedByDate])

theorem mem_sortByDateObj {x : PEvent} {l : List PEvent} :
    x ∈ sortByDateObj l ↔ x ∈ l := by
  have go : ∀ (l acc : List PEvent),
      (x ∈ l.foldl (fun acc e => sortInsert e acc) acc ↔ x ∈ acc ∨ x ∈ l) := by
    intro l
    induction l with
    | nil => intro acc; simp
    | cons e l ih =>
      intro acc
      rw [List.foldl_cons, ih (sortInsert e acc)]
      simp only [mem_sortInsert, List.mem_cons]
      tauto
  rw [sortByDateObj, go l []]
  simp

theorem filter_sortInsert (p : PEvent → Bool) (k : Nat × Nat × Nat) (e : PEvent)
    (l : List PEvent) (hl : SortedByDate l)
    (hkl : ∀ x ∈ l, p x = true → x.dateObj = k) (hke : p e = true → e.dateObj = k) :
    (sortInsert e l).filter p =
      if p e then l.filter p ++ [e] else l.filter p := by
  induction l with
  | nil =>
    cases hpe : p e <;> simp [sortInsert, List.filter_cons, hpe]
  | cons b bs ih =>
    rcases (List.pairwise_cons.mp hl) with ⟨hb, hbs⟩
    by_cases hle : dateLe b.dateObj e.dateObj = true
    · rw [sortInsert, if_pos hle]
      have ihr := ih hbs (fun x hx => hkl x (List.mem_cons_of_mem b hx))
      cases hpe : p e <;> simp only [hpe] at ihr <;>
        cases hpb : p b <;> simp [List.filter_cons, ihr, hpb, hpe]
    · rw [sortInsert, if_neg hle]
      cases hpe : p e
      · simp [List.filter_cons, hpe]
      · have hnone : (b :: bs).filter p = [] := by
          rw [List.filter_eq_nil_iff]
          intro x hx hpx
          have hxk : x.dateObj = k := hkl x hx hpx
          have hek : e.dateObj = k := hke hpe
          have hbx : dateLe b.dateObj x.dateObj = true := by
            rcases List.mem_cons.mp hx with rfl | hx
            · exact dateLe_refl _
            · exact hb x hx
          rw [hxk, ← hek] at hbx
          exact hle hbx
        simp only [List.filter_cons, hpe, if_true, hnone]
        simp [hnone]

theorem filter_sortByDateObj (p : PEvent → Bool) (k : Nat × Nat × Nat)
    (l : List PEvent) (hk : ∀ x ∈ l, p x = true → x.dateObj = k) :
    (sortByDateObj l).filter p = l.filter p := by
  have go : ∀ (l acc : List PEvent), SortedByDate acc →
      (∀ x ∈ acc, p x = true → x.dateObj = k) →
      (∀ x ∈ l, p x = true → x.dateObj = k) →
      (l.foldl (fun acc e => sortInsert e acc) acc).filter p =
        acc.filter p ++ l.filter p := by
    intro l
    induction l with
    | nil => intro acc _ _ _; simp
    | cons e l ih =>
      intro acc hacc haccK hlK
      rw [List.foldl_cons]
      have hmem : ∀ x ∈ sortInsert e acc, p x = true → x.dateObj = k := by
        intro x hx hpx
        rcases mem_sortInsert.mp hx with h₁ | h₁
        · rw [h₁] at hpx ⊢
          exact hlK e (List.mem_cons_self e l) hpx
        · exact haccK x h₁ hpx
      rw [ih (sortInsert e acc) (sortInsert_sorted hacc) hmem
        (fun x hx => hlK x (List.mem_cons_of_mem e hx))]
      rw [filter_sortInsert p k e acc hacc haccK (hlK e (List.mem_cons_self e l))]
      cases hpe : p e <;> simp [List.filter_cons, hpe]
  rw [sortByDateObj, go l [] (by simp [SortedByDate]) (by simp) hk]
  simp

/-! Properties of the grouping loop. -/

/-- Keys of the association list modelling `grouped_events`. -/
def keysOf (gs : List (String × List PEvent)) : List String := gs.map Prod.fst

/-- Invariant of the grouping loop after processing the events `pre`: keys are
distinct, every bucket holds exactly the processed events carrying its key (in
processing order), and strings without a bucket occur on no processed event. -/
def GroupsInv (pre : List PEvent) (gs : List (String × List PEvent)) : Prop :=
  (keysOf gs).Nodup ∧
  (∀ g ∈ gs, g.2 = pre.filter fun x => x.dateStr == g.1) ∧
  (∀ k : String, k ∉ keysOf gs → (pre.filter fun x => x.dateStr == k) = [])

theorem addToGroups_append_new {e : PEvent} {gs : List (String × List PEvent)}
    (h : e.dateStr ∉ keysOf gs) : addToGroups gs e = gs ++ [(e.dateStr, [e])] := by
  induction gs with
  | nil => rfl
  | cons g rest ih =>
    obtain ⟨k, es⟩ := g
    simp only [keysOf, List.map_cons, List.mem_cons, not_or] at h
    rw [addToGroups, if_neg (fun hEq => h.1 hEq.symm), ih h.2]
    simp

theorem addToGroups_append_found {e : PEvent} {gs₁ gs₂ : List (String × List PEvent)}
    {es : List PEvent} (h : e.dateStr ∉ keysOf gs₁) :
    addToGroups (gs₁ ++ (e.dateStr, es) :: gs₂) e = gs₁ ++ (e.dateStr, es ++ [e]) :: gs₂ := by
  induction gs₁ with
  | nil => simp [addToGroups]
  | cons g rest ih =>
    obtain ⟨k, es₀⟩ := g
    simp only [keysOf, List.map_cons, List.mem_cons, not_or] at h
    rw [List.cons_append, addToGroups, if_neg (fun hEq => h.1 hEq.symm), ih h.2]
    simp

theorem keys_decomp {e : PEvent} {gs : List (String × List PEvent)}
    (hmem : e.dateStr ∈ keysOf gs) (hnd : (keysOf gs).Nodup) :
    ∃ gs₁ es gs₂, gs = gs₁ ++ (e.dateStr, es) :: gs₂ ∧
      e.dateStr ∉ keysOf gs₁ ∧ e.dateStr ∉ keysOf gs₂ := by
  rcases List.mem_map.mp hmem with ⟨g, hg, hgk⟩
  rcases List.append_of_mem hg with ⟨gs₁, gs₂, rfl⟩
  obtain ⟨k, es⟩ := g
  simp only at hgk
  subst hgk
  have hsplit : keysOf (gs₁ ++ (e.dateStr, es) :: gs₂) =
      keysOf gs₁ ++ e.dateStr :: keysOf gs₂ := by simp [keysOf]
  rw [hsplit] at hnd
  rcases List.nodup_append.mp hnd with ⟨_, hnd₂, hdisj⟩
  refine ⟨gs₁, es, gs₂, rfl, ?_, ?_⟩
  · intro hk
    exact hdisj hk (List.mem_cons_self _ _)
  · intro hk
    exact (List.nodup_cons.mp hnd₂).1 hk

theorem groupsInv_step {pre : List PEvent} {gs : List (String × List PEvent)}
    (hinv : GroupsInv pre gs) (e : PEvent) :
    GroupsInv (pre ++ [e]) (addToGroups gs e) := by
  obtain ⟨hnd, hbkt, hmiss⟩ := hinv
  by_cases hmem : e.dateStr ∈ keysOf gs
  · rcases keys_decomp hmem hnd with ⟨gs₁, es, gs₂, rfl, hk₁, hk₂⟩
    rw [addToGroups_append_found hk₁]
    have hkeys : keysOf (gs₁ ++ (e.dateStr, es ++ [e]) :: gs₂) =
        keysOf (gs₁ ++ (e.dateStr, es) :: gs₂) := by simp [keysOf]
    refine ⟨by rw [hkeys]; exact hnd, ?_, ?_⟩
    · intro g hg
      rcases List.mem_append.mp hg with hg₁ | hg₂
      · have hgold := hbkt g (List.mem_append_left _ hg₁)
        have hgk : g.1 ≠ e.dateStr := by
          intro hEq
          exact hk₁ (hEq ▸ List.mem_map_of_mem Prod.fst hg₁)
        rw [hgold, List.filter_append]
        simp [hgk.symm]
      · rcases List.mem_cons.mp hg₂ with rfl | hg₃
        · have hB := hbkt (e.dateStr, es)
            (List.mem_append_right _ (List.mem_cons_self _ _))

          simp only at hB
          simp only [List.filter_append, ← hB]
          simp
        · have hgold := hbkt g
            (List.mem_append_right _ (List.mem_cons_of_mem _ hg₃))
          have hgk : g.1 ≠ e.dateStr := by
            intro hEq
            exact hk₂ (hEq ▸ List.mem_map_of_mem Prod.fst hg₃)
          rw [hgold, List.filter_append]
          simp [hgk.symm]
    · intro k hk
      rw [hkeys] at hk
      have hke : k ≠ e.dateStr := by
        intro hEq
        subst hEq
        exact hk (by simp [keysOf])
      have hef : (List.filter (fun x => x.dateStr == k) [e]) = [] := by
        simp [Ne.symm hke]
      rw [List.filter_append, hmiss k hk, hef]
      simp
  · rw [addToGroups_append_new hmem]
    have hkeys : keysOf (gs ++ [(e.dateStr, [e])]) = keysOf gs ++ [e.dateStr] := by
      simp [keysOf]
    refine ⟨?_, ?_, ?_⟩
    · rw [hkeys, List.nodup_append]
      exact ⟨hnd, List.nodup_singleton _, by simpa using fun h => hmem h⟩
    · intro g hg
      rcases List.mem_append.mp hg with hg₁ | hg₂
      · have hgold := hbkt g hg₁
        have hgk : g.1 ≠ e.dateStr := by
          intro hEq
          exact hmem (hEq ▸ List.mem_map_of_mem Prod.fst hg₁)
        rw [hgold, List.filter_append]
        simp [hgk.symm]
      · rcases List.mem_singleton.mp hg₂ with rfl
        simp only [List.filter_append, hmiss e.dateStr hmem]
        simp
    · intro k hk
      rw [hkeys] at hk
      simp only [List.mem_append, not_or, List.mem_singleton] at hk
      obtain ⟨hk₁, hk₂⟩ := hk
      have hef : (List.filter (fun x => x.dateStr == k) [e]) = [] := by
        simp [Ne.symm hk₂]
      rw [List.filter_append, hmiss k hk₁, hef]
      simp

theorem groupsInv_foldl {pre : List PEvent} {gs : List (String × List PEvent)}
    (hinv : GroupsInv pre gs) (l : List PEvent) :
    GroupsInv (pre ++ l) (List.foldl addToGroups gs l) := by
  induction l generalizing pre gs with
  | nil => simpa using hinv
  | cons e l ih =>
    have step := ih (groupsInv_step hinv e)
    rw [List.foldl_cons]
    simpa using step

theorem groupEvents_inv (l : List PEvent) : GroupsInv l (groupEvents l) := by
  have h := @groupsInv_foldl [] []
    ⟨List.nodup_nil, by simp, by simp⟩ l
  simpa [groupEvents] using h

/-- Order between two day groups: every event of the first is dated no later
than every event of the second. -/
def GroupLe (g g' : String × List PEvent) : Prop :=
  ∀ x ∈ g.2, ∀ y ∈ g'.2, dateLe x.dateObj y.dateObj = true

theorem groupEvents_chrono_go :
    ∀ (l : List PEvent) (gs : List (String × List PEvent)),
      SortedByDate l →
      (∀ x ∈ l, parseDate x.dateStr = some x.dateObj) →
      gs.Pairwise GroupLe →
      (∀ g ∈ gs, ∀ x ∈ g.2, ∀ y ∈ l, dateLe x.dateObj y.dateObj = true) →
      (∀ g ∈ gs, ∀ x ∈ g.2, x.dateStr = g.1 ∧ parseDate x.dateStr = some x.dateObj) →
      (∀ g ∈ gs, g.2 ≠ []) →
      (keysOf gs).Nodup →
      (List.foldl addToGroups gs l).Pairwise GroupLe := by
  intro l
  induction l with
  | nil =>
    intro gs _ _ hpw _ _ _ _
    simpa using hpw
  | cons e l ih =>
    intro gs hsort hparse hpw hfut hstr hne hnd
    rcases List.pairwise_cons.mp hsort with ⟨hel, hsl⟩
    rw [List.foldl_cons]
    by_cases hmem : e.dateStr ∈ keysOf gs
    · rcases keys_decomp hmem hnd with ⟨gs₁, es, gs₂, rfl, hk₁, hk₂⟩
      rw [addToGroups_append_found hk₁]
      have hBmem : (e.dateStr, es) ∈ gs₁ ++ (e.dateStr, es) :: gs₂ :=
        List.mem_append_right _ (List.mem_cons_self _ _)
      have hBnonempty : es ≠ [] := hne _ hBmem
      obtain ⟨x₀, hx₀⟩ : ∃ x₀, x₀ ∈ es := by
        cases es with
        | nil => exact absurd rfl hBnonempty
        | cons a t => exact ⟨a, List.mem_cons_self a t⟩
      have hx₀str : x₀.dateStr = e.dateStr := (hstr _ hBmem x₀ hx₀).1
      have hx₀obj : x₀.dateObj = e.dateObj := by
        have h₁ := (hstr _ hBmem x₀ hx₀).2
        have h₂ := hparse _ (List.mem_cons_self _ _)
        rw [hx₀str, h₂] at h₁
        exact (Option.some_inj.mp h₁).symm
      have hmemB : ∀ x ∈ es ++ [e], x ∈ es ∨ x = e := by
        intro x hx
        rcases List.mem_append.mp hx with h | h
        · exact Or.inl h
        · exact Or.inr (List.mem_singleton.mp h)
      rcases List.pairwise_append.mp hpw with ⟨hpw₁, hpw₂, hcross⟩
      rcases List.pairwise_cons.mp hpw₂ with ⟨hBlater, hpwgs₂⟩
      refine ih (gs₁ ++ (e.dateStr, es ++ [e]) :: gs₂) hsl
        (fun x hx => hparse x (List.mem_cons_of_mem e hx)) ?_ ?_ ?_ ?_ ?_
      · rw [List.pairwise_append]
        refine ⟨hpw₁, ?_, ?_⟩
        · rw [List.pairwise_cons]
          refine ⟨?_, hpwgs₂⟩
          intro g' hg' x hx y hy
          rcases hmemB x hx with hxes | rfl
          · exact hBlater g' hg' x hxes y hy
          · rw [← hx₀obj]
            exact hBlater g' hg' x₀ hx₀ y hy
        · intro g hg g' hg' x hx y hy
          rcases List.mem_cons.mp hg' with rfl | hg₂
          · rcases hmemB y hy with hyes | rfl
            · exact hcross g hg (e.dateStr, es) (List.mem_cons_self _ _) x hx y hyes
            · exact hfut g (List.mem_append_left _ hg) x hx y (List.mem_cons_self _ _)
          · exact hcross g hg g' (List.mem_cons_of_mem _ hg₂) x hx y hy
      · intro g hg x hx y hy
        rcases List.mem_append.mp hg with hg₁ | hg₂
        · exact hfut g (List.mem_append_left _ hg₁) x hx y (List.mem_cons_of_mem e hy)
        · rcases List.mem_cons.mp hg₂ with rfl | hg₃
          · rcases hmemB x hx with hxes | rfl
            · exact hfut _ hBmem x hxes y (List.mem_cons_of_mem e hy)
            · exact hel y hy
          · exact hfut g (List.mem_append_right _ (List.mem_cons_of_mem _ hg₃)) x hx y
              (List.mem_cons_of_mem e hy)
      · intro g hg x hx
        rcases List.mem_append.mp hg with hg₁ | hg₂
        · exact hstr g (List.mem_append_left _ hg₁) x hx
        · rcases List.mem_cons.mp hg₂ with rfl | hg₃
          · rcases hmemB x hx with hxes | rfl
            · exact hstr _ hBmem x hxes
            · exact ⟨rfl, hparse _ (List.mem_cons_self _ _)⟩
          · exact hstr g (List.mem_append_right _ (List.mem_cons_of_mem _ hg₃)) x hx
      · intro g hg
        rcases List.mem_append.mp hg with hg₁ | hg₂
        · exact hne g (List.mem_append_left _ hg₁)
        · rcases List.mem_cons.mp hg₂ with rfl | hg₃
          · simp
          · exact hne g (List.mem_append_right _ (List.mem_cons_of_mem _ hg₃))
      · have : keysOf (gs₁ ++ (e.dateStr, es ++ [e]) :: gs₂) =
            keysOf (gs₁ ++ (e.dateStr, es) :: gs₂) := by simp [keysOf]
        rw [this]
        exact hnd
    · rw [addToGroups_append_new hmem]
      refine ih (gs ++ [(e.dateStr, [e])]) hsl
        (fun x hx => hparse x (List.mem_cons_of_mem e hx)) ?_ ?_ ?_ ?_ ?_
      · rw [List.pairwise_append]
        refine ⟨hpw, List.pairwise_singleton _ _, ?_⟩
        intro g hg g' hg' x hx y hy
        rcases List.mem_singleton.mp hg' with rfl
        rcases List.mem_singleton.mp hy with rfl
        exact hfut g hg x hx y (List.mem_cons_self _ _)
      · intro g hg x hx y hy
        rcases List.mem_append.mp hg with hg₁ | hg₂
        · exact hfut g hg₁ x hx y (List.mem_cons_of_mem e hy)
        · rcases List.mem_singleton.mp hg₂ with rfl
          rcases List.mem_singleton.mp hx with rfl
          exact hel y hy
      · intro g hg x hx
        rcases List.mem_append.mp hg with hg₁ | hg₂
        · exact hstr g hg₁ x hx
        · rcases List.mem_singleton.mp hg₂ with rfl
          rcases List.mem_singleton.mp hx with rfl
          exact ⟨rfl, hparse _ (List.mem_cons_self _ _)⟩
      · intro g hg
        rcases List.mem_append.mp hg with hg₁ | hg₂
        · exact hne g hg₁
        · rcases List.mem_singleton.mp hg₂ with rfl
          simp
      · rw [show keysOf (gs ++ [(e.dateStr, [e])]) = keysOf gs ++ [e.dateStr] by simp [keysOf],
          List.nodup_append]
        exact ⟨hnd, List.nodup_singleton _, by simpa using fun h => hmem h⟩

/-- Day groups of a sorted list of parse-consistent events are chronologically
ordered. -/
theorem groupEvents_chrono (l : List PEvent) (hsort : SortedByDate l)
    (hparse : ∀ x ∈ l, parseDate x.dateStr = some x.dateObj) :
    (groupEvents l).Pairwise GroupLe :=
  groupEvents_chrono_go l [] hsort hparse (by simp) (by simp) (by simp) (by simp)
    List.nodup_nil

/-! Properties of preprocessing and of the rendering loops. -/

theorem preprocess_parse {events : List Event} {x : PEvent} (hx : x ∈ preprocess events) :
    parseDate x.dateStr = some x.dateObj := by
  rcases List.mem_filterMap.mp hx with ⟨e, _, he⟩
  cases hp : parseDate e.date with
  | none => rw [hp] at he; simp at he
  | some d =>
    rw [hp] at he
    simp only [Option.map_some', Option.some_inj] at he
    rw [← he]
    exact hp

theorem preprocess_drop_invalid (l₁ l₂ : List Event) (e : Event)
    (h : parseDate e.date = none) :
    preprocess (l₁ ++ e :: l₂) = preprocess (l₁ ++ l₂) := by
  simp only [preprocess, List.filterMap_append, List.filterMap_cons, h, Option.map_none']

theorem renderEvents_snd (evs : List PEvent) :
    ∀ y : Nat, (renderEvents evs y).2 = y + totalHeightOf evs := by
  induction evs with
  | nil => intro y; simp [renderEvents, totalHeightOf]
  | cons e rest ih =>
    intro y
    rw [renderEvents, ih]
    simp only [totalHeightOf, List.map_cons, List.sum_cons, List.length_cons, eventHeight]
    ring

theorem join_cons (a : String) (l : List String) :
    String.join (a :: l) = a ++ String.join l := by
  have go : ∀ (l : List String) (x y : String),
      List.foldl (fun r s => r ++ s) (x ++ y) l = x ++ List.foldl (fun r s => r ++ s) y l := by
    intro l
    induction l with
    | nil => intro x y; rfl
    | cons b bs ih =>
      intro x y
      simp only [List.foldl_cons, String.append_assoc]
      exact ih x (y ++ b)
  have h₁ : ("" : String) ++ a = a := rfl
  have h₂ : a ++ ("" : String) = a := by simp
  simp only [String.join, List.foldl_cons, h₁]
  calc List.foldl (fun r s => r ++ s) a l
      = List.foldl (fun r s => r ++ s) (a ++ "") l := by rw [h₂]
    _ = a ++ List.foldl (fun r s => r ++ s) "" l := go l a ""

theorem renderGroups_fst (gs : List (String × List PEvent)) :
    ∀ x mh : Nat, (renderGroups gs x mh).1 =
      String.join ((gs.zip (loopXs gs x)).map fun p => renderDay p.1.1 p.1.2 p.2) := by
  induction gs with
  | nil => intro x mh; rfl
  | cons g rest ih =>
    intro x mh
    obtain ⟨ds, evs⟩ := g
    rw [renderGroups, loopXs]
    simp only [List.zip_cons_cons, List.map_cons]
    rw [join_cons, ih (x + dateSpacing) (max mh (timelineY + totalHeightOf evs + 50))]

theorem loopXs_closed (gs : List (String × List PEvent)) :
    ∀ x : Nat, loopXs gs x = (List.range gs.length).map fun i => x + dateSpacing * i := by
  induction gs with
  | nil => intro x; simp [loopXs]
  | cons g rest ih =>
    intro x
    rw [loopXs, ih (x + dateSpacing), List.length_cons, List.range_succ_eq_map]
    simp only [List.map_cons, Nat.mul_zero, Nat.add_zero, List.map_map]
    congr 1
    apply List.map_congr_left
    intro i _
    show x + dateSpacing + dateSpacing * i = x + dateSpacing * (i + 1)
    ring

theorem renderGroups_snd (gs : List (String × List PEvent)) :
    ∀ x mh : Nat, (renderGroups gs x mh).2 =
      (gs.map fun g => totalHeightOf g.2).foldl (fun m th => max m (timelineY + th + 50)) mh := by
  induction gs with
  | nil => intro x mh; rfl
  | cons g rest ih =>
    intro x mh
    obtain ⟨ds, evs⟩ := g
    rw [renderGroups]
    simp only [List.map_cons, List.foldl_cons]
    exact ih (x + dateSpacing) (max mh (timelineY + totalHeightOf evs + 50))

theorem renderGroups_snd_ge (gs : List (String × List PEvent)) :
    ∀ x mh : Nat, mh ≤ (renderGroups gs x mh).2 := by
  have go : ∀ (l : List Nat) (mh : Nat),
      mh ≤ l.foldl (fun m th => max m (timelineY + th + 50)) mh := by
    intro l
    induction l with
    | nil => intro mh; simp
    | cons a t ih =>
      intro mh
      simp only [List.foldl_cons]
      exact le_trans (Nat.le_max_left _ _) (ih _)
  intro x mh
  rw [renderGroups_snd]
  exact go _ mh

/-! Properties of the `str.replace` model.  The goal is the distribution lemma
`replaceL_skip`: a replacement whose pattern contains a double quote but neither
`#` nor `;` can touch no occurrence of a color value `#hhhhhh` that is followed
by `;` — any occurrence of the pattern overlapping the color region would have
to contain `#` (if it starts at or before the `#`), contain `;` (if it runs past
the color), or consist of hex characters only (if it sits inside, impossible for
a pattern containing `"`).  Hence the replacement acts independently on the text
before and after the color. -/

/-- Hex characters occurring in the palette color values. -/
def hexColorChar (c : Char) : Bool := c.isDigit || ('a' ≤ c && c ≤ 'f')

theorem replaceLF_congr (pat rep : List Char) :
    ∀ (fuel fuel' : Nat) (s : List Char), s.length ≤ fuel → s.length ≤ fuel' →
      replaceLF pat rep fuel s = replaceLF pat rep fuel' s := by
  intro fuel
  induction fuel with
  | zero =>
    intro fuel' s hs _
    have : s = [] := List.eq_nil_of_length_eq_zero (Nat.le_zero.mp hs)
    subst this
    cases fuel' <;> rfl
  | succ f ih =>
    intro fuel' s hs hs'
    cases s with
    | nil => cases fuel' <;> rfl
    | cons c cs =>
      cases fuel' with
      | zero => simp at hs'
      | succ f' =>
        rw [replaceLF, replaceLF]
        by_cases h : pat ≠ [] ∧ pat.isPrefixOf (c :: cs)
        · rw [if_pos h, if_pos h]
          have hp : 0 < pat.length := List.length_pos.mpr h.1
          have hd : ((c :: cs).drop pat.length).length ≤ f := by
            simp only [List.length_drop, List.length_cons]
            simp only [List.length_cons] at hs
            omega
          have hd' : ((c :: cs).drop pat.length).length ≤ f' := by
            simp only [List.length_drop, List.length_cons]
            simp only [List.length_cons] at hs'
            omega
          rw [ih f' _ hd hd']
        · rw [if_neg h, if_neg h]
          have hc : cs.length ≤ f := by
            simp only [List.length_cons] at hs
            omega
          have hc' : cs.length ≤ f' := by
            simp only [List.length_cons] at hs'
            omega
          rw [ih f' cs hc hc']

theorem replaceL_cons_pos {pat : List Char} (rep : List Char) {c : Char} {cs : List Char}
    (hne : pat ≠ []) (hpre : pat <+: (c :: cs)) :
    replaceL pat rep (c :: cs) = rep ++ replaceL pat rep ((c :: cs).drop pat.length) := by
  rw [replaceL, replaceL, List.length_cons, replaceLF,
    if_pos ⟨hne, List.isPrefixOf_iff_prefix.mpr hpre⟩]
  congr 1
  have hp : 0 < pat.length := List.length_pos.mpr hne
  apply replaceLF_congr
  · simp only [List.length_drop, List.length_cons]
    omega
  · exact Nat.le_refl _

theorem replaceL_cons_neg {pat : List Char} (rep : List Char) {c : Char} {cs : List Char}
    (hpre : ¬ pat <+: (c :: cs)) :
    replaceL pat rep (c :: cs) = c :: replaceL pat rep cs := by
  rw [replaceL, replaceL, List.length_cons, replaceLF, if_neg]
  intro ⟨_, hp⟩
  exact hpre (List.isPrefixOf_iff_prefix.mp hp)

theorem prefix_of_append_short {pat A B : List Char} (h : pat <+: A ++ B)
    (hlen : pat.length ≤ A.length) : pat <+: A := by
  have htake : pat = (A ++ B).take pat.length := by
    rcases h with ⟨t, ht⟩
    rw [← ht, List.take_left']
    rfl
  rw [htake, List.take_append_of_le_length hlen]
  exact List.take_prefix _ _

theorem mem_of_prefix_overrun {pat A B : List Char} {a : Char}
    (h : pat <+: A ++ a :: B) (hlen : A.length < pat.length) : a ∈ pat := by
  have h₁ : A ++ [a] <+: A ++ a :: B := ⟨B, by simp⟩
  rcases List.prefix_or_prefix_of_prefix h h₁ with h₂ | h₂
  · have : pat = A ++ [a] := by
      apply List.IsPrefix.eq_of_length_le h₂
      simpa using hlen
    rw [this]
    simp
  · exact h₂.subset (by simp)

theorem replaceL_hex (pat rep : List Char) (hq : '"' ∈ pat) (hsemi : ';' ∉ pat)
    (D : List Char) (hD : ∀ c ∈ D, hexColorChar c = true) (Y' : List Char) :
    replaceL pat rep (D ++ ';' :: Y') = D ++ replaceL pat rep (';' :: Y') := by
  induction D with
  | nil => rfl
  | cons d D' ih =>
    have hnomatch : ¬ pat <+: (d :: D') ++ ';' :: Y' := by
      intro hpre
      by_cases hlen : pat.length ≤ (d :: D').length
      · have hsub := (prefix_of_append_short hpre hlen).subset
        have : hexColorChar '"' = true := hD '"' (hsub hq)
        simp [hexColorChar] at this
      · exact hsemi (mem_of_prefix_overrun hpre (by omega))
    rw [List.cons_append, replaceL_cons_neg rep (by simpa using hnomatch)]
    rw [ih fun c hc => hD c (List.mem_cons_of_mem d hc)]
    rfl

theorem replaceL_nil (pat rep : List Char) : replaceL pat rep [] = [] := rfl

theorem replaceL_skip_go (pat rep : List Char) (hq : '"' ∈ pat) (hhash : '#' ∉ pat)
    (hsemi : ';' ∉ pat) :
    ∀ (n : Nat) (X : List Char), X.length ≤ n →
      ∀ (D : List Char), (∀ c ∈ D, hexColorChar c = true) → ∀ Y' : List Char,
        replaceL pat rep (X ++ '#' :: (D ++ ';' :: Y')) =
          replaceL pat rep X ++ '#' :: (D ++ replaceL pat rep (';' :: Y')) := by
  have hne : pat ≠ [] := List.ne_nil_of_mem hq
  have base : ∀ (D : List Char), (∀ c ∈ D, hexColorChar c = true) → ∀ Y' : List Char,
      replaceL pat rep ('#' :: (D ++ ';' :: Y')) =
        '#' :: (D ++ replaceL pat rep (';' :: Y')) := by
    intro D hD Y'
    have hnomatch : ¬ pat <+: '#' :: (D ++ ';' :: Y') := by
      intro hpre
      cases pat with
      | nil => exact hne rfl
      | cons p ps =>
        have := (List.cons_prefix_cons.mp hpre).1
        rw [this] at hhash
        exact hhash (List.mem_cons_self _ _)
    rw [replaceL_cons_neg rep hnomatch, replaceL_hex pat rep hq hsemi D hD Y']
  intro n
  induction n with
  | zero =>
    intro X hX D hD Y'
    have : X = [] := List.eq_nil_of_length_eq_zero (Nat.le_zero.mp hX)
    subst this
    simpa [replaceL_nil] using base D hD Y'
  | succ n ih =>
    intro X hX D hD Y'
    cases X with
    | nil => simpa [replaceL_nil] using base D hD Y'
    | cons c X' =>
      by_cases hm : pat <+: (c :: X') ++ '#' :: (D ++ ';' :: Y')
      · have hlen : pat.length ≤ (c :: X').length := by
          by_contra hgt
          exact hhash (mem_of_prefix_overrun hm (by omega))
        have hpre : pat <+: c :: X' := prefix_of_append_short hm hlen
        have hdrop : ((c :: X') ++ '#' :: (D ++ ';' :: Y')).drop pat.length =
            (c :: X').drop pat.length ++ '#' :: (D ++ ';' :: Y') :=
          List.drop_append_of_le_length hlen
        rw [show (c :: X') ++ '#' :: (D ++ ';' :: Y') =
            c :: (X' ++ '#' :: (D ++ ';' :: Y')) by simp] at hm ⊢
        rw [replaceL_cons_pos rep hne hm]
        rw [show (c :: (X' ++ '#' :: (D ++ ';' :: Y'))).drop pat.length =
            (c :: X').drop pat.length ++ '#' :: (D ++ ';' :: Y') by
          rw [← hdrop]; simp]
        have hlen' : ((c :: X').drop pat.length).length ≤ n := by
          simp only [List.length_drop, List.length_cons]
          have hp : 0 < pat.length := List.length_pos.mpr hne
          simp only [List.length_cons] at hX
          omega
        rw [ih _ hlen' D hD Y', replaceL_cons_pos rep hne hpre]
        simp
      · have hm' : ¬ pat <+: c :: X' := by
          intro hp
          exact hm (hp.trans (List.prefix_append _ _))
        rw [show (c :: X') ++ '#' :: (D ++ ';' :: Y') =
            c :: (X' ++ '#' :: (D ++ ';' :: Y')) by simp] at hm ⊢
        rw [replaceL_cons_neg rep hm]
        have hXlen : X'.length ≤ n := by
          simp only [List.length_cons] at hX
          omega
        rw [ih X' hXlen D hD Y', replaceL_cons_neg rep hm']
        simp

/-- Shape of a palette color value: `#` followed by lowercase hex characters. -/
def ColorShape (c : String) : Prop :=
  ∃ D, c.data = '#' :: D ∧ ∀ ch ∈ D, hexColorChar ch = true

/-- Distribution of `str.replace` around a protected color occurrence. -/
theorem pyReplace_skip (X C Y pat rep : String) (hq : '"' ∈ pat.data)
    (hhash : '#' ∉ pat.data) (hsemi : ';' ∉ pat.data) (hC : ColorShape C)
    (hY : ∃ Y₀, Y.data = ';' :: Y₀) :
    pyReplace (X ++ C ++ Y) pat rep = pyReplace X pat rep ++ C ++ pyReplace Y pat rep := by
  rcases hC with ⟨D, hCD, hD⟩
  rcases hY with ⟨Y₀, hY₀⟩
  show List.asString (replaceL pat.data rep.data (X ++ C ++ Y).data) = _
  rw [String.data_append, String.data_append, hCD, hY₀]
  rw [show X.data ++ ('#' :: D) ++ ';' :: Y₀ = X.data ++ '#' :: (D ++ ';' :: Y₀) by simp]
  rw [replaceL_skip_go pat.data rep.data hq hhash hsemi X.data.length X.data le_rfl D hD Y₀]
  rw [← hY₀]
  show _ = List.asString ((replaceL pat.data rep.data X.data ++ C.data) ++
    replaceL pat.data rep.data Y.data)
  rw [hCD]
  congr 1
  simp

theorem replaceL_empty_pat (rep : List Char) (c : Char) (cs : List Char) :
    replaceL [] rep (c :: cs) = c :: replaceL [] rep cs := by
  rw [replaceL, replaceL, List.length_cons, replaceLF, if_neg]
  intro h
  exact h.1 rfl

/-- A replacement whose pattern does not contain `;` keeps a leading `;`. -/
theorem pyReplace_semi_head (Y pat rep : String) (hsemi : ';' ∉ pat.data)
    (hY : ∃ Y₀, Y.data = ';' :: Y₀) :
    ∃ Z₀, (pyReplace Y pat rep).data = ';' :: Z₀ := by
  rcases hY with ⟨Y₀, hY₀⟩
  refine ⟨replaceL pat.data rep.data Y₀, ?_⟩
  show (replaceL pat.data rep.data Y.data) = _
  rw [hY₀]
  by_cases hne : pat.data = []
  · rw [hne, replaceL_empty_pat]
  · have hnomatch : ¬ pat.data <+: ';' :: Y₀ := by
      intro hpre
      cases hp : pat.data with
      | nil => exact hne hp
      | cons p ps =>
        rw [hp] at hpre
        have := (List.cons_prefix_cons.mp hpre).1
        rw [hp, this] at hsemi
        exact hsemi (List.mem_cons_self _ _)
    rw [replaceL_cons_neg rep.data hnomatch]

/-- Interleaving of (literal, color) pieces in front of a tail. -/
def interleave : List (String × String) → String → String
  | [], tail => tail
  | (lit, col) :: rest, tail => lit ++ (col ++ interleave rest tail)

theorem semi_head_append (A B : String) (h : ∃ t, A.data = ';' :: t) :
    ∃ t, (A ++ B).data = ';' :: t := by
  rcases h with ⟨t, ht⟩
  exact ⟨t ++ B.data, by rw [String.data_append, ht]; rfl⟩

theorem interleave_semi_head (ps : List (String × String)) (tail : String)
    (hlits : ∀ pr ∈ ps, ∃ t, pr.1.data = ';' :: t)
    (htail : ∃ t, tail.data = ';' :: t) :
    ∃ t, (interleave ps tail).data = ';' :: t := by
  cases ps with
  | nil => exact htail
  | cons pr rest =>
    obtain ⟨lit, col⟩ := pr
    rw [interleave]
    exact semi_head_append _ _ (hlits (lit, col) (List.mem_cons_self _ _))

theorem pyReplace_interleave (pat rep : String) (hq : '"' ∈ pat.data)
    (hhash : '#' ∉ pat.data) (hsemi : ';' ∉ pat.data) :
    ∀ (ps : List (String × String)) (tail : String),
      (∀ pr ∈ ps, ColorShape pr.2) →
      (∀ pr ∈ ps.tail, ∃ t, pr.1.data = ';' :: t) →
      (∃ t, tail.data = ';' :: t) →
      pyReplace (interleave ps tail) pat rep =
        interleave (ps.map fun pr => (pyReplace pr.1 pat rep, pr.2)) (pyReplace tail pat rep) := by
  intro ps
  induction ps with
  | nil => intro tail _ _ _; rfl
  | cons pr rest ih =>
    intro tail hcol hlit htail
    obtain ⟨lit, col⟩ := pr
    have hrestlit : ∀ pr ∈ rest, ∃ t, pr.1.data = ';' :: t := by
      intro pr hpr
      exact hlit pr (by simpa using hpr)
    have hY : ∃ t, (interleave rest tail).data = ';' :: t :=
      interleave_semi_head rest tail hrestlit htail
    rw [interleave, show lit ++ (col ++ interleave rest tail) =
      lit ++ col ++ interleave rest tail from (String.append_assoc ..).symm]
    rw [pyReplace_skip lit col (interleave rest tail) pat rep hq hhash hsemi
      (hcol (lit, col) (List.mem_cons_self _ _)) hY]
    rw [ih tail (fun pr hpr => hcol pr (List.mem_cons_of_mem _ hpr))
      (fun pr hpr => hrestlit pr (List.mem_of_mem_tail hpr)) htail]
    simp [interleave, String.append_assoc]

/-! Decimal digits of `Nat.repr`, needed to check that the viewBox replacement
pattern contains neither `#` nor `;`. -/

theorem digitChar_isDigit {m : Nat} (h : m < 10) : (Nat.digitChar m).isDigit = true := by
  interval_cases m <;> decide

theorem toDigitsCore_digits :
    ∀ (fuel n : Nat) (acc : List Char), (∀ c ∈ acc, c.isDigit = true) →
      ∀ c ∈ Nat.toDigitsCore 10 fuel n acc, c.isDigit = true := by
  intro fuel
  induction fuel with
  | zero =>
    intro n acc hacc c hc
    exact hacc c (by simpa [Nat.toDigitsCore] using hc)
  | succ f ih =>
    intro n acc hacc c hc
    rw [Nat.toDigitsCore] at hc
    have hmod : (Nat.digitChar (n % 10)).isDigit = true :=
      digitChar_isDigit (Nat.mod_lt n (by norm_num))
    by_cases h0 : n / 10 = 0
    · rw [if_pos h0] at hc
      rcases List.mem_cons.mp hc with rfl | hc₂
      · exact hmod
      · exact hacc c hc₂
    · rw [if_neg h0] at hc
      refine ih (n / 10) (Nat.digitChar (n % 10) :: acc) ?_ c hc
      intro c' hc'
      rcases List.mem_cons.mp hc' with rfl | hc₂
      · exact hmod
      · exact hacc c' hc₂

theorem toString_nat_digits (n : Nat) : ∀ c ∈ (toString n).data, c.isDigit = true := by
  intro c hc
  have hrepr : (toString n).data = Nat.toDigits 10 n := rfl
  rw [hrepr, Nat.toDigits] at hc
  exact toDigitsCore_digits (n + 1) n [] (by simp) c hc

/-- Height-substitution pattern of line 135 (`svg_height` is always 500). -/
def heightPat : String := "height=\"" ++ toString (500 : Nat) ++ "\""

/-- ViewBox-substitution pattern of line 138. -/
def viewBoxPat (W : Nat) : String :=
  "viewBox=\"0 0 " ++ toString W ++ " " ++ toString (500 : Nat) ++ "\""

theorem heightPat_conds : '"' ∈ heightPat.data ∧ '#' ∉ heightPat.data ∧ ';' ∉ heightPat.data := by
  have : heightPat = "height=\"500\"" := rfl
  rw [this]
  decide

theorem viewBoxPat_conds (W : Nat) :
    '"' ∈ (viewBoxPat W).data ∧ '#' ∉ (viewBoxPat W).data ∧ ';' ∉ (viewBoxPat W).data := by
  have hdata : (viewBoxPat W).data =
      "viewBox=\"0 0 ".data ++ (toString W).data ++ " ".data ++ "500\"".data := by
    have h500 : (toString (500 : Nat)).data = ['5', '0', '0'] := rfl
    simp [viewBoxPat, String.data_append, h500]
  refine ⟨?_, ?_, ?_⟩
  · rw [hdata]
    simp only [List.mem_append]
    left; left; left
    decide
  · rw [hdata]
    simp only [List.mem_append, not_or]
    refine ⟨⟨⟨by decide, ?_⟩, by decide⟩, by decide⟩
    intro hmem
    have := toString_nat_digits W '#' hmem
    simp at this
  · rw [hdata]
    simp only [List.mem_append, not_or]
    refine ⟨⟨⟨by decide, ?_⟩, by decide⟩, by decide⟩
    intro hmem
    have := toString_nat_digits W ';' hmem
    simp at this

/-- Both substitutions of lines 134–140, as a function of the palette-independent
quantities `W` (canvas width) and `MH` (final height). -/
def bothReplacements (W MH : Nat) (z : String) : String :=
  pyReplace (pyReplace z heightPat ("height=\"" ++ toString MH ++ "\""))
    (viewBoxPat W) ("viewBox=\"0 0 " ++ toString W ++ " " ++ toString MH ++ "\"")

/-- The substituted document decomposes into palette-independent pieces around
the seven color occurrences of the style block. -/
theorem replaced_pieces (pal : Palette) (W MH : Nat) (B : String)
    (hbg : ColorShape pal.bgColor) (htx : ColorShape pal.textColor)
    (hsec : ColorShape pal.secondaryText) (hln : ColorShape pal.lineColor)
    (hcn : ColorShape pal.connectorColor) :
    bothReplacements W MH (svgHeader pal W 500 ++ B) =
      bothReplacements W MH (headL0 W 500) ++ pal.bgColor ++
      (bothReplacements W MH headL1 ++ pal.lineColor ++
      (bothReplacements W MH headL2 ++ pal.connectorColor ++
      (bothReplacements W MH headL3 ++ pal.bgColor ++
      (bothReplacements W MH headL4 ++ pal.textColor ++
      (bothReplacements W MH headL5 ++ pal.secondaryText ++
      (bothReplacements W MH headL6 ++ pal.textColor ++
      bothReplacements W MH (headL7 W timelineY ++ B))))))) := by
  obtain ⟨hq1, hh1, hs1⟩ := heightPat_conds
  obtain ⟨hq2, hh2, hs2⟩ := viewBoxPat_conds W
  have h7 : ∃ t, (headL7 W timelineY).data = ';' :: t := by
    unfold headL7
    exact semi_head_append _ _ (semi_head_append _ _ (semi_head_append _ _
      (semi_head_append _ _ (semi_head_append _ _ (semi_head_append _ _
        (semi_head_append _ _ (semi_head_append _ _ ⟨_, rfl⟩)))))))
  have htail1 : ∃ t, (headL7 W timelineY ++ B).data = ';' :: t :=
    semi_head_append _ _ h7
  have hcontent : svgHeader pal W 500 ++ B =
      interleave [(headL0 W 500, pal.bgColor), (headL1, pal.lineColor),
        (headL2, pal.connectorColor), (headL3, pal.bgColor), (headL4, pal.textColor),
        (headL5, pal.secondaryText), (headL6, pal.textColor)]
        (headL7 W timelineY ++ B) := by
    simp [svgHeader, interleave, String.append_assoc]
  have hcols : ∀ pr ∈ [(headL0 W 500, pal.bgColor), (headL1, pal.lineColor),
      (headL2, pal.connectorColor), (headL3, pal.bgColor), (headL4, pal.textColor),
      (headL5, pal.secondaryText), (headL6, pal.textColor)], ColorShape pr.2 := by
    intro pr hpr
    simp only [List.mem_cons, List.not_mem_nil, or_false] at hpr
    rcases hpr with rfl | rfl | rfl | rfl | rfl | rfl | rfl
    exacts [hbg, hln, hcn, hbg, htx, hsec, htx]
  have hlits1 : ∀ pr ∈ ([(headL0 W 500, pal.bgColor), (headL1, pal.lineColor),
      (headL2, pal.connectorColor), (headL3, pal.bgColor), (headL4, pal.textColor),
      (headL5, pal.secondaryText), (headL6, pal.textColor)] :
        List (String × String)).tail, ∃ t, pr.1.data = ';' :: t := by
    intro pr hpr
    simp only [List.tail_cons, List.mem_cons, List.not_mem_nil, or_false] at hpr
    rcases hpr with rfl | rfl | rfl | rfl | rfl | rfl
    exacts [⟨_, rfl⟩, ⟨_, rfl⟩, ⟨_, rfl⟩, ⟨_, rfl⟩, ⟨_, rfl⟩, ⟨_, rfl⟩]
  rw [bothReplacements, hcontent]
  rw [pyReplace_interleave heightPat _ hq1 hh1 hs1 _ _ hcols hlits1 htail1]
  simp only [List.map_cons, List.map_nil]
  have hcols2 : ∀ pr ∈ [(pyReplace (headL0 W 500) heightPat ("height=\"" ++ toString MH ++ "\""), pal.bgColor),
      (pyReplace headL1 heightPat ("height=\"" ++ toString MH ++ "\""), pal.lineColor),
      (pyReplace headL2 heightPat ("height=\"" ++ toString MH ++ "\""), pal.connectorColor),
      (pyReplace headL3 heightPat ("height=\"" ++ toString MH ++ "\""), pal.bgColor),
      (pyReplace headL4 heightPat ("height=\"" ++ toString MH ++ "\""), pal.textColor),
      (pyReplace headL5 heightPat ("height=\"" ++ toString MH ++ "\""), pal.secondaryText),
      (pyReplace headL6 heightPat ("height=\"" ++ toString MH ++ "\""), pal.textColor)],
      ColorShape pr.2 := by
    intro pr hpr
    simp only [List.mem_cons, List.not_mem_nil, or_false] at hpr
    rcases hpr with rfl | rfl | rfl | rfl | rfl | rfl | rfl
    exacts [hbg, hln, hcn, hbg, htx, hsec, htx]
  have hlits2 : ∀ pr ∈ ([(pyReplace (headL0 W 500) heightPat ("height=\"" ++ toString MH ++ "\""), pal.bgColor),
      (pyReplace headL1 heightPat ("height=\"" ++ toString MH ++ "\""), pal.lineColor),
      (pyReplace headL2 heightPat ("height=\"" ++ toString MH ++ "\""), pal.connectorColor),
      (pyReplace headL3 heightPat ("height=\"" ++ toString MH ++ "\""), pal.bgColor),
      (pyReplace headL4 heightPat ("height=\"" ++ toString MH ++ "\""), pal.textColor),
      (pyReplace headL5 heightPat ("height=\"" ++ toString MH ++ "\""), pal.secondaryText),
      (pyReplace headL6 heightPat ("height=\"" ++ toString MH ++ "\""), pal.textColor)] :
        List (String × String)).tail, ∃ t, pr.1.data = ';' :: t := by
    intro pr hpr
    simp only [List.tail_cons, List.mem_cons, List.not_mem_nil, or_false] at hpr
    rcases hpr with rfl | rfl | rfl | rfl | rfl | rfl
    all_goals exact pyReplace_semi_head _ _ _ hs1 ⟨_, rfl⟩
  have htail2 : ∃ t,
      (pyReplace (headL7 W timelineY ++ B) heightPat ("height=\"" ++ toString MH ++ "\"")).data =
        ';' :: t :=
    pyReplace_semi_head _ _ _ hs1 htail1
  rw [pyReplace_interleave (viewBoxPat W) _ hq2 hh2 hs2 _ _ hcols2 hlits2 htail2]
  simp only [List.map_cons, List.map_nil]
  simp [interleave, bothReplacements, String.append_assoc]

theorem generate_as_replacements (events : List Event) (d : Bool) :
    generate_timeline_svg events d =
      bothReplacements
        (max 1100 ((groupEvents (sortByDateObj (preprocess events))).length * 180))
        (renderGroups (groupEvents (sortByDateObj (preprocess events))) initialX timelineY).2
        (svgHeader (if d then darkPalette else lightPalette)
          (max 1100 ((groupEvents (sortByDateObj (preprocess events))).length * 180)) 500 ++
          (renderGroups (groupEvents (sortByDateObj (preprocess events))) initialX timelineY).1)
        ++ "</svg>" := rfl

/-- C3: the dark-mode and light-mode outputs are the same byte sequence except at
the seven occurrences of the five semantic colors (background, baseline line,
connector, background as marker stroke, primary text twice, secondary text),
which hold the respective palette's values; all other bytes — every coordinate
and text value — are shared. -/
theorem chk_c3 (events : List Event) :
    ∃ p₀ p₁ p₂ p₃ p₄ p₅ p₆ p₇ : String,
      generate_timeline_svg events true =
        p₀ ++ darkPalette.bgColor ++ (p₁ ++ darkPalette.lineColor ++
        (p₂ ++ darkPalette.connectorColor ++ (p₃ ++ darkPalette.bgColor ++
        (p₄ ++ darkPalette.textColor ++ (p₅ ++ darkPalette.secondaryText ++
        (p₆ ++ darkPalette.textColor ++ p₇)))))) ∧
      generate_timeline_svg events false =
        p₀ ++ lightPalette.bgColor ++ (p₁ ++ lightPalette.lineColor ++
        (p₂ ++ lightPalette.connectorColor ++ (p₃ ++ lightPalette.bgColor ++
        (p₄ ++ lightPalette.textColor ++ (p₅ ++ lightPalette.secondaryText ++
        (p₆ ++ lightPalette.textColor ++ p₇)))))) := by
  refine ⟨bothReplacements (max 1100 ((groupEvents (sortByDateObj (preprocess events))).length * 180))
      (renderGroups (groupEvents (sortByDateObj (preprocess events))) initialX timelineY).2
      (headL0 (max 1100 ((groupEvents (sortByDateObj (preprocess events))).length * 180)) 500),
    bothReplacements (max 1100 ((groupEvents (sortByDateObj (preprocess events))).length * 180))
      (renderGroups (groupEvents (sortByDateObj (preprocess events))) initialX timelineY).2 headL1,
    bothReplacements (max 1100 ((groupEvents (sortByDateObj (preprocess events))).length * 180))
      (renderGroups (groupEvents (sortByDateObj (preprocess events))) initialX timelineY).2 headL2,
    bothReplacements (max 1100 ((groupEvents (sortByDateObj (preprocess events))).length * 180))
      (renderGroups (groupEvents (sortByDateObj (preprocess events))) initialX timelineY).2 headL3,
    bothReplacements (max 1100 ((groupEvents (sortByDateObj (preprocess events))).length * 180))
      (renderGroups (groupEvents (sortByDateObj (preprocess events))) initialX timelineY).2 headL4,
    bothReplacements (max 1100 ((groupEvents (sortByDateObj (preprocess events))).length * 180))
      (renderGroups (groupEvents (sortByDateObj (preprocess events))) initialX timelineY).2 headL5,
    bothReplacements (max 1100 ((groupEvents (sortByDateObj (preprocess events))).length * 180))
      (renderGroups (groupEvents (sortByDateObj (preprocess events))) initialX timelineY).2 headL6,
    bothReplacements (max 1100 ((groupEvents (sortByDateObj (preprocess events))).length * 180))
      (renderGroups (groupEvents (sortByDateObj (preprocess events))) initialX timelineY).2
      (headL7 (max 1100 ((groupEvents (sortByDateObj (preprocess events))).length * 180))
        timelineY ++
        (renderGroups (groupEvents (sortByDateObj (preprocess events))) initialX timelineY).1)
      ++ "</svg>", ?_, ?_⟩
  · rw [generate_as_replacements events true]
    rw [show (if true then darkPalette else lightPalette) = darkPalette from rfl]
    rw [replaced_pieces darkPalette _ _ _ ⟨_, rfl, by decide⟩ ⟨_, rfl, by decide⟩
      ⟨_, rfl, by decide⟩ ⟨_, rfl, by decide⟩ ⟨_, rfl, by decide⟩]
    simp [String.append_assoc]
  · rw [generate_as_replacements events false]
    rw [show (if false then darkPalette else lightPalette) = lightPalette from rfl]
    rw [replaced_pieces lightPalette _ _ _ ⟨_, rfl, by decide⟩ ⟨_, rfl, by decide⟩
      ⟨_, rfl, by decide⟩ ⟨_, rfl, by decide⟩ ⟨_, rfl, by decide⟩]
    simp [String.append_assoc]

/-! Example inputs used by witnesses and counterexamples. -/

/-- Seven events on seven distinct dates. -/
def exSeven : List Event :=
  [⟨"2023-01-01", "00:00", ""⟩, ⟨"2023-01-02", "00:00", ""⟩, ⟨"2023-01-03", "00:00", ""⟩,
   ⟨"2023-01-04", "00:00", ""⟩, ⟨"2023-01-05", "00:00", ""⟩, ⟨"2023-01-06", "00:00", ""⟩,
   ⟨"2023-01-07", "00:00", ""⟩]

/-- One event. -/
def exOne : List Event := [⟨"2023-01-01", "00:00", ""⟩]

/-- Two events whose distinct date strings parse to the same calendar date. -/
def exC1 : List Event := [⟨"2023-01-05", "09:00", "a"⟩, ⟨"2023-1-5", "10:00", "b"⟩]

/-- Two same-day events with empty text. -/
def exC8 : List Event := [⟨"2023-01-05", "09:00", ""⟩, ⟨"2023-01-05", "10:00", ""⟩]

/-! Settled claims. -/

/-- C1 (counterexample): the two records of `exC1` carry the same parsed date
`2023-01-05`, yet the output has two day groups, one per distinct date string —
so a distinct parsed date does not form exactly one bucket. -/
theorem chk_c1_cex :
    parseDate "2023-01-05" = some (2023, 1, 5) ∧ parseDate "2023-1-5" = some (2023, 1, 5) ∧
    ((preprocess exC1).map PEvent.dateObj) = [(2023, 1, 5), (2023, 1, 5)] ∧
    ((groupsOf exC1).map Prod.fst) = ["2023-01-05", "2023-1-5"] ∧
    (groupsOf exC1).length = 2 ∧ ¬ (groupsOf exC1).length = 1 := by
  decide

/-- C1 (amended): day groups are keyed by the distinct date strings (one bucket
per distinct string — records with different strings parsing to the same date
form separate buckets); each bucket holds exactly the kept records carrying its
string, in their original input order (the sort by parsed date is stable); every
kept record lands in a bucket; and the buckets appear in non-decreasing
chronological order of their parsed dates. -/
theorem chk_c1 (events : List Event) :
    (∀ g ∈ groupsOf events, g.2 = (preprocess events).filter fun x => x.dateStr == g.1) ∧
    (keysOf (groupsOf events)).Nodup ∧
    (∀ e ∈ preprocess events, ∃ g ∈ groupsOf events, g.1 = e.dateStr) ∧
    (groupsOf events).Pairwise GroupLe := by
  obtain ⟨hnd, hbkt, hmiss⟩ := groupEvents_inv (sortByDateObj (preprocess events))
  have hparse : ∀ x ∈ sortByDateObj (preprocess events),
      parseDate x.dateStr = some x.dateObj := by
    intro x hx
    exact preprocess_parse (mem_sortByDateObj.mp hx)
  refine ⟨?_, hnd, ?_, ?_⟩
  · intro g hg
    rw [hbkt g hg]
    apply filter_sortByDateObj _ ((parseDate g.1).getD (0, 0, 0))
    intro x hx hpx
    have hxg : x.dateStr = g.1 := by simpa using hpx
    have hp := preprocess_parse hx
    rw [hxg] at hp
    rw [hp]
    have hp' := preprocess_parse hx
    rw [hxg, hp] at hp'
    simpa using hp'.symm
  · intro e he
    by_contra hno
    push_neg at hno
    have hkey : e.dateStr ∉ keysOf (groupsOf events) := by
      intro hk
      rcases List.mem_map.mp hk with ⟨g, hg, hgk⟩
      exact hno g hg hgk
    have hfilter := hmiss e.dateStr hkey
    have hmem : e ∈ (sortByDateObj (preprocess events)).filter
        fun x => x.dateStr == e.dateStr := by
      rw [List.mem_filter]
      exact ⟨mem_sortByDateObj.mpr he, by simp⟩
    rw [hfilter] at hmem
    exact List.not_mem_nil e hmem
  · exact groupEvents_chrono _ (sortByDateObj_sorted _) hparse

/-- C1 (witness): at `exOne`, the single kept record has a bucket. -/
theorem chk_c1_witness :
    ∃ g ∈ groupsOf exOne, g.1 = "2023-01-01" := by
  have h := (chk_c1 exOne).2.2.1 ⟨(2023, 1, 1), "2023-01-01", "00:00", ""⟩ (by decide)
  simpa using h

/-- C2: a record whose date does not parse is reported by the diagnostic and the
output document is identical to the one produced without that record — the bad
record does not affect the layout of the others, and the run continues. -/
theorem chk_c2 (d : Bool) (l₁ l₂ : List Event) (e : Event)
    (h : parseDate e.date = none) :
    generate_timeline_svg (l₁ ++ e :: l₂) d = generate_timeline_svg (l₁ ++ l₂) d ∧
    e ∈ skippedEvents (l₁ ++ e :: l₂) := by
  constructor
  · unfold generate_timeline_svg
    rw [preprocess_drop_invalid l₁ l₂ e h]
  · rw [skippedEvents, List.mem_filter]
    refine ⟨List.mem_append_right _ (List.mem_cons_self _ _), ?_⟩
    rw [h]
    rfl

/-- C2 (witness). -/
theorem chk_c2_witness :
    generate_timeline_svg ([] ++ ⟨"bad", "09:00", "x"⟩ :: exOne) true =
      generate_timeline_svg ([] ++ exOne) true ∧
    (⟨"bad", "09:00", "x"⟩ : Event) ∈ skippedEvents ([] ++ ⟨"bad", "09:00", "x"⟩ :: exOne) :=
  chk_c2 true [] exOne ⟨"bad", "09:00", "x"⟩ (by decide)

/-- C5: an event's rendered lines are obtained by splitting its text on embedded
newlines and word-wrapping each paragraph independently at width 14; the total
line count is the sum of the per-paragraph wrapped-line counts, and an empty
paragraph contributes zero lines. -/
theorem chk_c5 (text : String) :
    eventLines text = (pySplit '\n' text.data).flatMap (fun p => wrap p.asString 14) ∧
    (eventLines text).length =
      ((pySplit '\n' text.data).map fun p => (wrap p.asString 14).length).sum ∧
    wrap "" 14 = [] := by
  refine ⟨rfl, ?_, by decide⟩
  rw [eventLines, List.length_flatMap]
  rfl

/-- C6: each event's height is its wrapped-line count times the 15px line height
plus 10px padding; each group's height is the sum of its events' heights plus
10px per event; and the final canvas height is the running maximum, over the
groups, of group height plus the fixed margins (100 above the baseline, 50
below), never falling below the baseline offset. -/
theorem chk_c6 (events : List Event) :
    (∀ e : PEvent, eventHeight e = (eventLines e.text).length * 15 + 10) ∧
    (∀ evs : List PEvent, totalHeightOf evs = (evs.map eventHeight).sum + evs.length * 10) ∧
    finalHeightOf events = ((groupsOf events).map fun g => totalHeightOf g.2).foldl
      (fun m th => max m (timelineY + th + 50)) timelineY ∧
    timelineY ≤ finalHeightOf events := by
  refine ⟨fun e => rfl, fun evs => rfl, ?_, ?_⟩
  · exact renderGroups_snd _ _ _
  · exact renderGroups_snd_ge _ _ _

/-- C8 (counterexample): a group of two events whose text wraps to zero lines
has total computed height 40, not zero — each such event still contributes its
fixed 10px padding and 10px inter-event gap. -/
theorem chk_c8_cex :
    eventLines "" = [] ∧
    ((groupsOf exC8).map fun g => totalHeightOf g.2) = [40] ∧ (40 : Nat) ≠ 0 := by
  decide

/-- C8 (amended): an event with zero wrapped lines has event height exactly 10
(the fixed padding), and appending it to a day group increases the group's total
height by exactly 20 (padding plus the 10px inter-event gap) — the zero-line
text itself contributes nothing, but the fixed per-event constants remain. -/
theorem chk_c8 (evs : List PEvent) (e : PEvent) (h : eventLines e.text = []) :
    eventHeight e = 10 ∧ totalHeightOf (evs ++ [e]) = totalHeightOf evs + 20 := by
  constructor
  · rw [eventHeight, h]
    simp
  · simp only [totalHeightOf, List.map_append, List.sum_append, List.length_append,
      List.map_cons, List.map_nil, List.sum_cons, List.sum_nil, List.length_cons,
      List.length_nil, eventHeight, h]
    simp
    ring

/-- C8 (witness). -/
theorem chk_c8_witness :
    eventHeight ⟨(2023, 1, 5), "2023-01-05", "09:00", ""⟩ = 10 ∧
    totalHeightOf ([] ++ [⟨(2023, 1, 5), "2023-01-05", "09:00", ""⟩]) =
      totalHeightOf [] + 20 :=
  chk_c8 [] ⟨(2023, 1, 5), "2023-01-05", "09:00", ""⟩ (by decide)

/-- C9: for every day group, the cumulative vertical offset reached after
stacking the group's events (15px per wrapped line plus a 20px advance per
event) equals the group's total computed height, and the dashed connector's end
coordinate rendered for the group is exactly that value, so the connector spans
the stacked events. -/
theorem chk_c9 (dateStr : String) (dayEvents : List PEvent) (x : Nat) :
    (renderEvents dayEvents 0).2 = totalHeightOf dayEvents ∧
    ∃ pre post : String, renderDay dateStr dayEvents x =
      pre ++ ("            <line x1=\"0\" y1=\"-15\" x2=\"0\" y2=\"" ++
        toString (renderEvents dayEvents 0).2 ++ "\" class=\"day-connector\"/>\n") ++ post := by
  have hoff : (renderEvents dayEvents 0).2 = totalHeightOf dayEvents := by
    rw [renderEvents_snd dayEvents 0]
    exact Nat.zero_add _
  refine ⟨hoff, "    <!-- " ++ dateStr ++ " -->\n" ++
    ("    <g transform=\"translate(" ++ toString x ++ "," ++ toString timelineY ++ ")\">\n") ++
    "        <circle cx=\"0\" cy=\"0\" r=\"6\" class=\"event-circle main-anchor\"/>\n" ++
    ("        <text x=\"0\" y=\"-20\" class=\"date-label\">" ++ dateStr ++ "</text>\n") ++
    "        <g class=\"day-group\" transform=\"translate(0,25)\">\n",
    (renderEvents dayEvents 0).1 ++ "        </g>\n" ++ "    </g>\n\n", ?_⟩
  rw [hoff, renderDay]
  simp only [String.append_assoc]

/-- C4 (counterexample): no single slot width makes both the placement rule
`margin + i × w` and the width rule `max(minw, n × w)` true, because the loop
advances `current_x` by 160 while the width uses 180 per group: at `exSeven` the
placements force `w = 160` and then the width 1260 forces `minw = 1260`, which
contradicts the width 1100 at `exOne`. -/
theorem chk_c4_cex :
    ¬ ∃ margin w minw : Nat,
      (loopXs (groupsOf exSeven) initialX =
          (List.range (groupsOf exSeven).length).map (fun i => margin + w * i) ∧
        svgWidthOf exSeven = max minw ((groupsOf exSeven).length * w)) ∧
      (loopXs (groupsOf exOne) initialX =
          (List.range (groupsOf exOne).length).map (fun i => margin + w * i) ∧
        svgWidthOf exOne = max minw ((groupsOf exOne).length * w)) := by
  rintro ⟨m, w, mw, ⟨h7x, h7w⟩, ⟨h1x, h1w⟩⟩
  have hlen7 : (groupsOf exSeven).length = 7 := by decide
  have hlen1 : (groupsOf exOne).length = 1 := by decide
  have hx7 : loopXs (groupsOf exSeven) initialX =
      [80, 240, 400, 560, 720, 880, 1040] := by decide
  have hw7 : svgWidthOf exSeven = 1260 := by decide
  have hw1 : svgWidthOf exOne = 1100 := by decide
  rw [hx7, hlen7] at h7x
  rw [hw7, hlen7] at h7w
  rw [hw1, hlen1] at h1w
  rw [show List.range 7 = [0, 1, 2, 3, 4, 5, 6] from rfl] at h7x
  simp only [List.map_cons, List.map_nil, List.cons.injEq, and_true] at h7x
  obtain ⟨e0, e1, _⟩ := h7x
  omega

/-- C4 (amended): the i-th day group (chronological order) is placed at
`80 + i × 160` (margin 80, slot advance `date_spacing = 160`), which is where
the rendered body places it; the canvas width is `max(1100, n × 180)` with a
DIFFERENT per-group width (180); the width never falls below 1100 and is
monotone in the number of groups, and an earlier group always has a strictly
smaller horizontal position. -/
theorem chk_c4 (events : List Event) :
    (renderGroups (groupsOf events) initialX timelineY).1 =
      String.join (((groupsOf events).zip (loopXs (groupsOf events) initialX)).map
        fun p => renderDay p.1.1 p.1.2 p.2) ∧
    loopXs (groupsOf events) initialX =
      (List.range (groupsOf events).length).map (fun i => 80 + 160 * i) ∧
    svgWidthOf events = max 1100 ((groupsOf events).length * 180) ∧
    1100 ≤ svgWidthOf events ∧
    (∀ events' : List Event, (groupsOf events).length ≤ (groupsOf events').length →
      svgWidthOf events ≤ svgWidthOf events') ∧
    (∀ i j : Nat, i < j → 80 + 160 * i < 80 + 160 * j) := by
  refine ⟨renderGroups_fst _ _ _, loopXs_closed _ _, rfl, Nat.le_max_left _ _, ?_, ?_⟩
  · intro ev' hlen
    exact max_le_max (Nat.le_refl 1100) (Nat.mul_le_mul_right 180 hlen)
  · intro i j hij
    omega

/-- C4 (witness). -/
theorem chk_c4_witness :
    svgWidthOf exOne ≤ svgWidthOf exSeven ∧ 80 + 160 * 0 < 80 + 160 * 1 :=
  ⟨(chk_c4 exOne).2.2.2.2.1 exSeven (by decide),
   (chk_c4 exOne).2.2.2.2.2 0 1 (by decide)⟩

theorem preprocess_nil_of_all_invalid (events : List Event)
    (h : ∀ e ∈ events, parseDate e.date = none) : preprocess events = [] := by
  induction events with
  | nil => rfl
  | cons e l ih =>
    have he := h e (List.mem_cons_self _ _)
    rw [preprocess, List.filterMap_cons]
    simp only [he, Option.map_none']
    exact ih fun x hx => h x (List.mem_cons_of_mem e hx)

/-- Computable substring check: some split of the haystack exposes the needle. -/
def containsSeg : List Char → List Char → Bool
  | [], needle => needle.isEmpty
  | c :: r, needle => needle.isPrefixOf (c :: r) || containsSeg r needle

theorem exists_of_containsSeg :
    ∀ hay needle : List Char, containsSeg hay needle = true →
      ∃ p q, hay = p ++ needle ++ q := by
  intro hay
  induction hay with
  | nil =>
    intro needle h
    rw [containsSeg] at h
    refine ⟨[], [], ?_⟩
    rw [List.isEmpty_iff.mp h]
    rfl
  | cons c r ih =>
    intro needle h
    rw [containsSeg, Bool.or_eq_true] at h
    rcases h with h | h
    · rcases List.isPrefixOf_iff_prefix.mp h with ⟨t, ht⟩
      exact ⟨[], t, by rw [← ht]; rfl⟩
    · rcases ih needle h with ⟨p, q, hpq⟩
      exact ⟨c :: p, q, by simp [hpq]⟩

set_option maxRecDepth 8000 in
/-- C7: the empty input (and likewise an input whose every record has an
unparseable date) is not an error: it yields a document with zero day groups,
the minimum canvas width 1100 and the minimum canvas height 100 (the floor of
the height computation, which no input goes below, and below which no width
goes either), and the document still contains the baseline line. -/
theorem chk_c7 (d : Bool) :
    groupsOf [] = [] ∧
    svgWidthOf [] = minSvgWidth ∧
    finalHeightOf [] = minSvgHeight ∧
    (∀ events : List Event,
      minSvgHeight ≤ finalHeightOf events ∧ minSvgWidth ≤ svgWidthOf events) ∧
    (∀ events : List Event, (∀ e ∈ events, parseDate e.date = none) →
      generate_timeline_svg events d = generate_timeline_svg [] d) ∧
    (∃ p q : List Char, (generate_timeline_svg [] d).data =
      p ++ ("    <!-- 主时间轴线 -->\n    <line x1=\"50\" y1=\"100\" x2=\"1050\" y2=\"100\" class=\"timeline-line\" />\n").data ++ q) := by
  refine ⟨rfl, rfl, rfl, ?_, ?_, ?_⟩
  · intro events
    exact ⟨renderGroups_snd_ge _ _ _, Nat.le_max_left _ _⟩
  · intro events hall
    unfold generate_timeline_svg
    rw [preprocess_nil_of_all_invalid events hall]
    rfl
  · rcases exists_of_containsSeg _ _ (by cases d <;> decide :
      containsSeg (generate_timeline_svg [] d).data
        ("    <!-- 主时间轴线 -->\n    <line x1=\"50\" y1=\"100\" x2=\"1050\" y2=\"100\" class=\"timeline-line\" />\n").data = true)
      with ⟨p, q, hpq⟩
    exact ⟨p, q, hpq⟩

/-- C7 (witness). -/
theorem chk_c7_witness :
    minSvgHeight ≤ finalHeightOf exOne ∧
    generate_timeline_svg [⟨"bad", "00:00", "x"⟩] true = generate_timeline_svg [] true :=
  ⟨((chk_c7 true).2.2.2.1 exOne).1,
   (chk_c7 true).2.2.2.2.1 [⟨"bad", "00:00", "x"⟩] (by decide)⟩

/-- A record the preprocessing loop gets past without an uncaught exception:
its date key holds a string, and either the date fails to parse (the caught
`ValueError` path — time and text are then never read) or both remaining keys
are present. -/
def Passes (x : RawRecord) : Prop :=
  ∃ s, x.date = some (.str s) ∧
    (parseDate s = none ∨ (x.time ≠ none ∧ x.text ≠ none))

theorem preprocessDyn_error_append (pre : List RawRecord)
    (hpre : ∀ x ∈ pre, Passes x) (rest : List RawRecord) (err : PyExn)
    (h : preprocessDyn rest = .error err) :
    preprocessDyn (pre ++ rest) = .error err := by
  induction pre with
  | nil => simpa using h
  | cons r pre' ih =>
    have hr := hpre r (List.mem_cons_self _ _)
    have ih' := ih fun x hx => hpre x (List.mem_cons_of_mem r hx)
    obtain ⟨s, hdate, hor⟩ := hr
    rw [List.cons_append]
    rcases hor with hparse | ⟨htime, htext⟩
    · simp [preprocessDyn, hdate, hparse, ih', Except.map]
    · cases hp : parseDate s with
      | none => simp [preprocessDyn, hdate, hp, ih', Except.map]
      | some dobj =>
        cases htm : r.time with
        | none => exact absurd htm htime
        | some tm =>
          cases htx : r.text with
          | none => exact absurd htx htext
          | some tx => simp [preprocessDyn, hdate, hp, htm, htx, ih', Except.map]

/-- C10 (counterexample): a record that lacks both the `time` and `text` keys
but has an unparseable date string does NOT fail the invocation — the
`ValueError` from `strptime` is caught first, the record is skipped, and the
run writes the same output as for the empty list. -/
theorem chk_c10_cex :
    generateDyn [⟨some (.str "bad"), none, none⟩] false =
      .ok (renderFromProcessed [] false) ∧
    (⟨some (.str "bad"), none, none⟩ : RawRecord).time = none ∧
    (⟨some (.str "bad"), none, none⟩ : RawRecord).text = none := by
  exact ⟨rfl, rfl, rfl⟩

/-- C10 (amended): with every earlier record passing the loop, the first
offending record aborts the invocation with an uncaught exception (so no output
is written): a missing `date` key raises `KeyError`; a non-string date raises
`TypeError` from `strptime`; and when the date parses, a missing `time` or
`text` key raises `KeyError`.  Only a date-format `ValueError` is recovered
locally — in particular a record whose date string does not parse is skipped
even if its other keys are missing. -/
theorem chk_c10 (d : Bool) (pre post : List RawRecord) (r : RawRecord)
    (hpre : ∀ x ∈ pre, Passes x) :
    (r.date = none → generateDyn (pre ++ r :: post) d = .error .keyError) ∧
    (r.date = some .nonstr → generateDyn (pre ++ r :: post) d = .error .typeError) ∧
    (∀ s dobj, r.date = some (.str s) → parseDate s = some dobj → r.time = none →
      generateDyn (pre ++ r :: post) d = .error .keyError) ∧
    (∀ s dobj tm, r.date = some (.str s) → parseDate s = some dobj → r.time = some tm →
      r.text = none → generateDyn (pre ++ r :: post) d = .error .keyError) := by
  refine ⟨?_, ?_, ?_, ?_⟩
  · intro hdate
    have hhead : preprocessDyn (r :: post) = .error .keyError := by
      simp [preprocessDyn, hdate]
    rw [generateDyn, preprocessDyn_error_append pre hpre _ _ hhead]
    rfl
  · intro hdate
    have hhead : preprocessDyn (r :: post) = .error .typeError := by
      simp [preprocessDyn, hdate]
    rw [generateDyn, preprocessDyn_error_append pre hpre _ _ hhead]
    rfl
  · intro s dobj hdate hparse htime
    have hhead : preprocessDyn (r :: post) = .error .keyError := by
      simp [preprocessDyn, hdate, hparse, htime]
    rw [generateDyn, preprocessDyn_error_append pre hpre _ _ hhead]
    rfl
  · intro s dobj tm hdate hparse htime htext
    have hhead : preprocessDyn (r :: post) = .error .keyError := by
      simp [preprocessDyn, hdate, hparse, htime, htext]
    rw [generateDyn, preprocessDyn_error_append pre hpre _ _ hhead]
    rfl

/-- C10 (witness): after a passing record (bad date, keys missing — recovered),
a record lacking the `date` key kills the whole invocation with `KeyError`. -/
theorem chk_c10_witness :
    generateDyn ([⟨some (.str "bad"), none, none⟩] ++
      (⟨none, none, none⟩ : RawRecord) :: []) true = .error .keyError := by
  refine (chk_c10 true [⟨some (.str "bad"), none, none⟩] [] ⟨none, none, none⟩ ?_).1 rfl
  intro x hx
  rw [List.mem_singleton] at hx
  subst hx
  exact ⟨"bad", rfl, Or.inl (by decide)⟩

end Timeline
